import Mathlib

set_option maxHeartbeats 1000000
set_option maxRecDepth 8000

/-!
Shallow embedding of the seqio repository fragment (seqio/loggers.py and
seqio/metrics.py) together with proofs about the claims of its specification.

Modelling conventions:
* Python strings are lists of Unicode code points (`List Nat`); `pystr`
  converts a Lean string literal into that representation.
* Python bytes objects are lists of byte values (`List Nat`, each < 256).
* Numeric array elements and Python floats are carried as integers: no
  arithmetic is ever performed on them by the code under study, they are only
  moved around and printed, and the decimal printing of a float is abstracted
  to the decimal printing of its integer carrier.  This covers the integer
  dtypes exactly and abstracts only the float formatting.
* The filesystem visible through tf.io.gfile is a map from file names to
  optional contents; every write performed by the code is modelled as becoming
  immediately visible, which is the conservative choice for the atomicity
  claims.
* `json.dumps` is modelled by `dumpVal`, a fuel-indexed total function; the
  fuel decreases on every recursion step, and all statements are phrased at
  matching fuel values so that the bound is never the deciding factor.
-/

/-- Convert a Lean string literal into the code-point list model of a Python
string. -/
def pystr (s : String) : List Nat := s.data.map Char.toNat

/-- Code point of a single quote character. -/
def sQuote : List Nat := [39]

/-- Join a list of strings with a separator, as Python str.join does. -/
def joinSep (sep : List Nat) : List (List Nat) → List Nat
  | [] => []
  | [x] => x
  | x :: r => x ++ sep ++ joinSep sep r

/-- Decimal digits of a natural number, as code points, with explicit fuel so
that the definition is structural (and hence kernel-reducible). -/
def natDigitsAux : Nat → Nat → List Nat
  | 0, _ => []
  | fuel + 1, n => if n < 10 then [48 + n] else natDigitsAux fuel (n / 10) ++ [48 + n % 10]

/-- Decimal representation of a natural number (code points). -/
def natDigits (n : Nat) : List Nat := natDigitsAux (n + 1) n

/-- Python str of an int. -/
def intRepr (i : Int) : List Nat :=
  if i < 0 then 45 :: natDigits i.natAbs else natDigits i.toNat

/-- Python repr of a float, abstracted: the float is carried by an integer and
printed as that integer (float formatting itself is out of scope). -/
def floatRepr (x : Int) : List Nat := intRepr x

/-- Python format specification 06 applied to an integer: zero padding to
width 6, with the minus sign ahead of the padding. -/
def pad6 (i : Int) : List Nat :=
  if i < 0 then 45 :: (List.replicate (5 - (natDigits i.natAbs).length) 48 ++ natDigits i.natAbs)
  else List.replicate (6 - (natDigits i.toNat).length) 48 ++ natDigits i.toNat

/-- Lowercase hex digit code point for a value below 16. -/
def hexDigit (n : Nat) : Nat := if n < 10 then 48 + n else 87 + n

/-- Four lowercase hex digits of a value below 65536. -/
def hex4 (n : Nat) : List Nat :=
  [hexDigit (n / 4096 % 16), hexDigit (n / 256 % 16), hexDigit (n / 16 % 16), hexDigit (n % 16)]

/-- A JSON backslash-u escape. -/
def escU (n : Nat) : List Nat := [92, 117] ++ hex4 n

/-- How json.dumps with ensure_ascii (the default) renders one character of a
string: printable ASCII is kept, the two JSON special characters and the
control characters get backslash escapes, everything else becomes a
backslash-u escape (a surrogate pair beyond the basic plane). -/
def escapeChar (c : Nat) : List Nat :=
  if c = 34 then [92, 34]
  else if c = 92 then [92, 92]
  else if c = 8 then [92, 98]
  else if c = 9 then [92, 116]
  else if c = 10 then [92, 110]
  else if c = 12 then [92, 102]
  else if c = 13 then [92, 114]
  else if c < 32 then escU c
  else if c < 127 then [c]
  else if c < 65536 then escU c
  else escU (55296 + (c - 65536) / 1024) ++ escU (56320 + (c - 65536) % 1024)

/-- json.dumps rendering of a Python string. -/
def strDump (s : List Nat) : List Nat := 34 :: ((s.map escapeChar).flatten ++ [34])

/-- Item separator of json.dumps with default arguments. -/
def sepComma : List Nat := pystr ", "

/-- Key separator of json.dumps with default arguments. -/
def sepColon : List Nat := pystr ": "

/-- Decode one UTF-8 encoded code point from the lead byte and the remaining
bytes, yielding the code point and the bytes after it.  Implements exactly the
acceptance ranges Python bytes.decode with encoding utf-8 uses: stray
continuation bytes, overlong encodings, surrogate code points and values
beyond 0x10FFFF are rejected. -/
def utf8DecodeOne (b : Nat) (rest : List Nat) : Option (Nat × List Nat) :=
  if b < 128 then some (b, rest)
  else if b < 194 then Option.none
  else if b < 224 then
    match rest with
    | b1 :: rest1 =>
      if 128 ≤ b1 ∧ b1 < 192 then some ((b - 192) * 64 + (b1 - 128), rest1) else Option.none
    | [] => Option.none
  else if b < 240 then
    match rest with
    | b1 :: b2 :: rest2 =>
      if (if b = 224 then 160 ≤ b1 ∧ b1 < 192
          else if b = 237 then 128 ≤ b1 ∧ b1 < 160
          else 128 ≤ b1 ∧ b1 < 192) ∧ 128 ≤ b2 ∧ b2 < 192 then
        some ((b - 224) * 4096 + (b1 - 128) * 64 + (b2 - 128), rest2)
      else Option.none
    | _ => Option.none
  else if b < 245 then
    match rest with
    | b1 :: b2 :: b3 :: rest3 =>
      if (if b = 240 then 144 ≤ b1 ∧ b1 < 192
          else if b = 244 then 128 ≤ b1 ∧ b1 < 144
          else 128 ≤ b1 ∧ b1 < 192) ∧ (128 ≤ b2 ∧ b2 < 192) ∧ (128 ≤ b3 ∧ b3 < 192) then
        some ((b - 240) * 262144 + (b1 - 128) * 4096 + (b2 - 128) * 64 + (b3 - 128), rest3)
      else Option.none
    | _ => Option.none
  else Option.none

/-- The decoding loop, fuel indexed so that it is structural; each step
consumes at least one byte, so any fuel above the byte count is enough. -/
def utf8DecodeAux : Nat → List Nat → Option (List Nat)
  | 0, _ => Option.none
  | _ + 1, [] => some []
  | fuel + 1, b :: rest =>
    match utf8DecodeOne b rest with
    | some (c, rest2) => (utf8DecodeAux fuel rest2).map (fun t => c :: t)
    | Option.none => Option.none

/-- Strict UTF-8 decoding of a byte list into code points, as Python
bytes.decode with encoding utf-8.  Returns the decoded code points, or nothing
when decoding raises UnicodeDecodeError. -/
def utf8Decode (bs : List Nat) : Option (List Nat) := utf8DecodeAux (bs.length + 1) bs

/-- The standard base64 alphabet, as byte values. -/
def b64Alphabet : List Nat :=
  pystr "ABCDEFGHIJKLMNOPQRSTUVWXYZabcdefghijklmnopqrstuvwxyz0123456789+/"

/-- One base64 alphabet byte. -/
def b64Char (n : Nat) : Nat := b64Alphabet.getD n 0

/-- base64.b64encode on a byte list, producing the encoded byte list with
padding, exactly as the Python standard library does. -/
def b64encode : List Nat → List Nat
  | [] => []
  | [a] => [b64Char (a / 4), b64Char (a % 4 * 16), 61, 61]
  | [a, b] => [b64Char (a / 4), b64Char (a % 4 * 16 + b / 16), b64Char (b % 16 * 4), 61]
  | a :: b :: c :: rest =>
    [b64Char (a / 4), b64Char (a % 4 * 16 + b / 16), b64Char (b % 16 * 4 + c / 64),
      b64Char (c % 64)] ++ b64encode rest

/-- The numpy dtypes that occur in the code under study. -/
inductive Dtype where
  | int32
  | int64
  | float32
  | float64
  | bfloat16
  | bool_
  deriving DecidableEq

/-- str of a numpy dtype. -/
def dtypeStr : Dtype → List Nat
  | .int32 => pystr "int32"
  | .int64 => pystr "int64"
  | .float32 => pystr "float32"
  | .float64 => pystr "float64"
  | .bfloat16 => pystr "bfloat16"
  | .bool_ => pystr "bool"

/-- A numpy ndarray: shape, dtype and the element values in row-major order.
Element values are integer carriers (see the module conventions). -/
structure Nd where
  shape : List Nat
  dtype : Dtype
  data : List Int

/-- numpy size: the product of the dimensions. -/
def Nd.size (a : Nd) : Nat := a.shape.prod

/-- astype, which changes only the dtype tag of the model (bfloat16 to float32
conversion is value preserving). -/
def setDtype (a : Nd) (dt : Dtype) : Nd := { a with dtype := dt }

/-- Python repr of a shape tuple: (), (5,), (2, 3). -/
def shapeRepr : List Nat → List Nat
  | [] => pystr "()"
  | [n] => pystr "(" ++ natDigits n ++ pystr ",)"
  | n :: rest => pystr "(" ++ joinSep sepComma ((n :: rest).map natDigits) ++ pystr ")"

/-- Python repr of one array element after tolist, per dtype (float printing
abstracted to the integer carrier). -/
def elemRepr (dt : Dtype) (v : Int) : List Nat :=
  match dt with
  | .bool_ => if v == 0 then pystr "False" else pystr "True"
  | .int32 => intRepr v
  | .int64 => intRepr v
  | _ => floatRepr v

/-- str of the list of the first five elements of the flattened array, with the
surrounding brackets stripped, as built by the encoder source. -/
def firstFiveStr (a : Nd) : List Nat :=
  joinSep sepComma ((a.data.take 5).map (elemRepr a.dtype))

/-- The summary string the encoder produces for an oversized ndarray: the type
name, the shape, the original dtype and the first five flattened elements. -/
def ndSummary (odt : Dtype) (a : Nd) : List Nat :=
  pystr "ndarray(shape=" ++ shapeRepr a.shape ++ pystr ", dtype=" ++ dtypeStr odt ++
    pystr "); first: " ++ firstFiveStr a ++ pystr " ..."

/-- A Python value, covering everything the logging code moves around. -/
inductive PyVal where
  | none
  | bool (b : Bool)
  | int (i : Int)
  | float (x : Int)
  | str (s : List Nat)
  | bytes (bs : List Nat)
  | list (l : List PyVal)
  | dict (d : List (List Nat × PyVal))
  | ndarray (a : Nd)
  | npScalar (dt : Dtype) (v : Int)
  | npBool (b : Bool)
  | tfTensor (a : Nd)
  | other (tag : Nat)

/-- The Python-native leaf value produced by tolist for one element. -/
def leafVal (dt : Dtype) (v : Int) : PyVal :=
  match dt with
  | .bool_ => .bool (v != 0)
  | .int32 => .int v
  | .int64 => .int v
  | _ => .float v

/-- Nested-list structure of ndarray.tolist, recursing over the shape; a
rank-zero array yields the bare scalar. -/
def toNested (dt : Dtype) : List Nat → List Int → PyVal
  | [], data => leafVal dt data.headI
  | n :: rest, data =>
    .list ((List.range n).map fun i =>
      toNested dt rest ((data.drop (i * rest.prod)).take rest.prod))

/-- ndarray.tolist. -/
def Nd.tolist (a : Nd) : PyVal := toNested a.dtype a.shape a.data

/-- tf.Tensor.numpy: a rank-zero tensor yields a numpy scalar, any other rank
yields an ndarray. -/
def tensorToNumpy (a : Nd) : PyVal :=
  if a.shape = [] then
    match a.dtype with
    | .bool_ => .npBool (a.data.headI != 0)
    | dt => .npScalar dt a.data.headI
  else .ndarray a

/-- numpy scalar .item(): conversion to the Python-native value. -/
def npItem (dt : Dtype) (v : Int) : PyVal :=
  match dt with
  | .bool_ => .bool (v != 0)
  | .int32 => .int v
  | .int64 => .int v
  | _ => .float v

/-- The bfloat16-to-float32 conversion the encoder applies to tensors and
arrays before serializing (value preserving, only the dtype changes). -/
def castBf16 (a : Nd) : Nd :=
  if a.dtype = Dtype.bfloat16 then setDtype a Dtype.float32 else a

/-- The JSON encoder of loggers.py; the only state is the truncation
threshold, which defaults to 32. -/
structure TensorAndNumpyEncoder where
  max_ndarray_size : Int := 32

/-- TensorAndNumpyEncoder.default from loggers.py, translated branch by
branch.  json.dumps only delegates to this method for values it cannot
serialize natively; the native cases therefore fall through to the error case
exactly as json.JSONEncoder.default raises for them. -/
def TensorAndNumpyEncoder.default (e : TensorAndNumpyEncoder) (obj : PyVal) :
    Except Unit PyVal :=
  let obj1 :=
    match obj with
    | .tfTensor a => tensorToNumpy (castBf16 a)
    | v => v
  match obj1 with
  | .ndarray a =>
    let odt := a.dtype
    let a2 := castBf16 a
    if (a2.size : Int) ≤ e.max_ndarray_size then .ok a2.tolist
    else .ok (.str (ndSummary odt a2))
  | .npScalar dt v => if dt = Dtype.bfloat16 then .ok (.float v) else .ok (npItem dt v)
  | .npBool b => .ok (.bool b)
  | .bytes bs =>
    match utf8Decode bs with
    | some cps => .ok (.str cps)
    | Option.none => .ok (.bytes (b64encode bs))
  | _ => .error ()

/-- Option-valued mapM, as json.dumps traverses the elements of a list or the
entries of a dict: the first failure aborts. -/
def optMapM {α β : Type} (f : α → Option β) : List α → Option (List β)
  | [] => some []
  | a :: l => (f a).bind fun b => (optMapM f l).map fun bs => b :: bs

/-- json.dumps on one value, with or without the custom encoder class, fuel
indexed.  The fuel decreases on every step; all claims are phrased at matching
fuel values. -/
def dumpVal (cls : Option TensorAndNumpyEncoder) : Nat → PyVal → Option (List Nat)
  | 0, _ => Option.none
  | _ + 1, PyVal.none => some (pystr "null")
  | _ + 1, .bool b => some (if b then pystr "true" else pystr "false")
  | _ + 1, .int i => some (intRepr i)
  | _ + 1, .float x => some (floatRepr x)
  | _ + 1, .str s => some (strDump s)
  | fuel + 1, .list l =>
    (optMapM (fun v => dumpVal cls fuel v) l).map
      (fun parts => (91 :: joinSep sepComma parts) ++ [93])
  | fuel + 1, .dict d =>
    (optMapM (fun p => (dumpVal cls fuel p.2).map
        (fun s => strDump p.1 ++ sepColon ++ s)) d).map
      (fun parts => (123 :: joinSep sepComma parts) ++ [125])
  | fuel + 1, v =>
    match cls with
    | Option.none => Option.none
    | some e =>
      match e.default v with
      | .ok w => dumpVal cls fuel w
      | .error _ => Option.none

/-- Fuel used when the loggers serialize a single value; large enough that it
never binds for the values the code produces. -/
def encFuel : Nat := 32

/-- Fuel used for a whole output line, one more than for the values inside it
so that checking a part and serializing it inside the line coincide. -/
def lineFuel : Nat := encFuel + 1


/-- Union of int and float, the type of Scalar.value in metrics.py; the float
branch carries the abstract integer carrier. -/
inductive PyNum where
  | int (i : Int)
  | float (x : Int)

/-- The Scalar dataclass of metrics.py: the default tensorflow value. -/
structure Scalar where
  value : PyNum

/-- The Text dataclass of metrics.py; textdata is a str (left) or bytes
(right). -/
structure Text where
  textdata : (List Nat) ⊕ (List Nat)

/-- The Image dataclass of metrics.py. -/
structure Image where
  image : Nd
  max_outputs : Int := 3

/-- The Audio dataclass of metrics.py. -/
structure Audio where
  audiodata : Nd
  sample_rate : Int := 44100
  max_outputs : Int := 3

/-- The Histogram dataclass of metrics.py. -/
structure Histogram where
  values : Nd
  bins : Option Int := Option.none

/-- tf.compat.v1.SummaryMetadata is external to the repository and is
abstracted to an opaque tag. -/
structure SummaryMetadata where
  raw : Nat

/-- The Generic dataclass of metrics.py: a raw tensor plus summary metadata. -/
structure Generic where
  tensor : Nd
  metadata : SummaryMetadata

/-- MetricValue, the base class of metrics.py, modelled as the sum of its six
dataclass variants; each Python subclass corresponds to one constructor. -/
inductive MetricValue where
  | scalar (s : Scalar)
  | text (t : Text)
  | image (i : Image)
  | audio (a : Audio)
  | histogram (h : Histogram)
  | generic (g : Generic)

/-- Python type(...).__name__ for a MetricValue. -/
def MetricValue.typeName : MetricValue → List Nat
  | .scalar _ => pystr "Scalar"
  | .text _ => pystr "Text"
  | .image _ => pystr "Image"
  | .audio _ => pystr "Audio"
  | .histogram _ => pystr "Histogram"
  | .generic _ => pystr "Generic"

/-- An action performed on a tensorflow summary writer. -/
inductive WAction where
  | addSummary (tag : List Nat) (simple_value : PyNum) (step : Int)
  | flush

/-- The ValueError message TensorBoardLogger.__call__ raises for a non-Scalar
metric, rendered exactly as the f-string in the source. -/
def valueErrMsg (name : List Nat) (v : MetricValue) : List Nat :=
  pystr "Value for metric " ++ sQuote ++ name ++ sQuote ++ pystr " should be of type " ++
    sQuote ++ pystr "Scalar, got " ++ sQuote ++ v.typeName ++ sQuote ++ pystr "."

/-- The metric loop of TensorBoardLogger.__call__: adds one summary per Scalar
metric and stops with a ValueError at the first non-Scalar value. -/
def tbLoop (step : Int) : List (List Nat × MetricValue) → List WAction × Option (List Nat)
  | [] => ([], Option.none)
  | (name, v) :: rest =>
    match v with
    | .scalar s =>
      let r := tbLoop step rest
      (.addSummary (pystr "eval/" ++ name) s.value step :: r.1, r.2)
    | w => ([], some (valueErrMsg name w))

/-- Observable outcome of TensorBoardLogger.__call__: which per-task writer
was used, the actions performed on it, and the ValueError if one was
raised. -/
structure TBCallOut where
  writerTask : List Nat
  actions : List WAction
  error : Option (List Nat)

/-- TensorBoardLogger.__call__ from loggers.py.  dataset, inferences and
targets are deleted unused by the source and are omitted here; the per-task
summary writer (created on demand) is abstracted to tagging the output with
the task name; a missing step is replaced by the dummy value -1 after a
warning. -/
def TensorBoardLogger.call (task_name : List Nat) (step? : Option Int)
    (metrics : List (List Nat × MetricValue)) : TBCallOut :=
  let step := step?.getD (-1)
  let r := tbLoop step metrics
  match r.2 with
  | Option.none => ⟨task_name, r.1 ++ [.flush], Option.none⟩
  | some e => ⟨task_name, r.1, some e⟩

/-- The filesystem visible through tf.io.gfile: file name to contents. -/
abbrev FS := List Nat → Option (List Nat)

/-- Writing a whole file. -/
def FS.write (fs : FS) (name contents : List Nat) : FS :=
  fun n => if n = name then some contents else fs n

/-- tf.io.gfile.rename with overwrite: the destination receives the source
contents and the source disappears. -/
def FS.rename (fs : FS) (src dst : List Nat) : FS :=
  fun n => if n = dst then fs src else if n = src then Option.none else fs n

/-- The empty filesystem. -/
def emptyFS : FS := fun _ => Option.none

/-- os.path.join for a directory and a relative file name. -/
def pathJoin (dir name : List Nat) : List Nat := dir ++ pystr "/" ++ name

/-- Conversion of a Scalar value to the Python value stored in the metrics
line. -/
def pyNumVal : PyNum → PyVal
  | .int i => .int i
  | .float x => .float x

/-- Conversion of Text.textdata to the Python value stored in the metrics
line. -/
def textVal : (List Nat) ⊕ (List Nat) → PyVal
  | .inl s => .str s
  | .inr b => .bytes b

/-- The serializable_metrics mapping built by JSONLogger.__call__: Scalar
metrics contribute their value, Text metrics their textdata, every other
variant is skipped with a warning. -/
def serializableMetrics (metrics : List (List Nat × MetricValue)) : List (List Nat × PyVal) :=
  metrics.filterMap fun p =>
    match p.2 with
    | .scalar s => some (p.1, pyNumVal s.value)
    | .text t => some (p.1, textVal t.textdata)
    | _ => Option.none

/-- Python dict insertion of one binding: an existing key keeps its position
and gets the new value, a new key is appended. -/
def dictUpd (d : List (List Nat × PyVal)) (kv : List Nat × PyVal) : List (List Nat × PyVal) :=
  if d.any (fun p => p.1 == kv.1) then
    d.map (fun p => if p.1 == kv.1 then (p.1, kv.2) else p)
  else d ++ [kv]

/-- The dict literal written into the metrics line, with the step key first
and serializable_metrics splatted over it, following Python dict display
semantics. -/
def metricsDict (step : Int) (metrics : List (List Nat × MetricValue)) :
    List (List Nat × PyVal) :=
  (serializableMetrics metrics).foldl dictUpd [(pystr "step", .int step)]

/-- JSONLogger state: output directory, optional cap on written results, and
the encoder instance used for inference lines. -/
structure JSONLogger where
  output_dir : List Nat
  write_n_results : Option Int := Option.none
  json_encoder : TensorAndNumpyEncoder := {}

/-- The metrics file name task-metrics.jsonl inside the output directory. -/
def metricsFnameOf (lg : JSONLogger) (task : List Nat) : List Nat :=
  pathJoin lg.output_dir (task ++ pystr "-metrics.jsonl")

/-- The inferences file name with the step formatted to width 6. -/
def infFnameOf (lg : JSONLogger) (task : List Nat) (step : Int) : List Nat :=
  pathJoin lg.output_dir (task ++ pystr "-" ++ pad6 step ++ pystr ".jsonl")

/-- The metrics block of JSONLogger.__call__: when metrics is non-empty, read
the old contents, write old contents plus the new line to the .tmp file, and
rename it over the metrics file; serialization uses plain json.dumps, whose
failure (a TypeError on bytes) aborts the call after the first tmp write.
Returns the intermediate filesystem states, the final state and whether an
exception was raised. -/
def metricsPhase (lg : JSONLogger) (task : List Nat) (step : Int)
    (metrics : List (List Nat × MetricValue)) (fs : FS) : List FS × FS × Bool :=
  if metrics.isEmpty then ([], fs, false)
  else
    let mname := metricsFnameOf lg task
    let tmpname := mname ++ pystr ".tmp"
    let old := (fs mname).getD []
    let fs1 := FS.write fs tmpname old
    match dumpVal Option.none lineFuel (.dict (metricsDict step metrics)) with
    | Option.none => ([fs1], fs1, true)
    | some line =>
      let fs2 := FS.write fs1 tmpname (old ++ line ++ [10])
      let fs3 := FS.rename fs2 tmpname mname
      ([fs1, fs2, fs3], fs3, false)

/-- A dataset example after tfds.as_numpy: a feature dict. -/
abbrev Inp := List (List Nat × PyVal)

/-- One tuple produced by itertools.zip_longest over dataset, predictions,
targets and scores, with the None fill value. -/
abbrev Entry := Option Inp × PyVal × PyVal × PyVal

/-- Mapping.get with a default, for the inferences mapping. -/
def mapGet (m : List (List Nat × List PyVal)) (k : List Nat) (d : List PyVal) : List PyVal :=
  match m.find? (fun p => p.1 == k) with
  | some p => p.2
  | Option.none => d

/-- itertools.zip_longest over the four aligned sequences, filling missing
positions with None. -/
def zipLongest4 (ds : List Inp) (ps ts ss : List PyVal) : List Entry :=
  (List.range (max (max ds.length ps.length) (max ts.length ss.length))).map fun i =>
    (ds.get? i, ps.getD i .none, ts.getD i .none, ss.getD i .none)

/-- Whether a Python value is None. -/
def PyVal.isNone : PyVal → Bool
  | .none => true
  | _ => false

/-- The json_dict built for one zip_longest entry: input always; prediction
only when it is not None and serializes; target only when it serializes (None
does); score only when it is not None.  Returns nothing when the input slot is
None, in which case iterating over it raises a TypeError. -/
def lineDictOf (cls : TensorAndNumpyEncoder) (en : Entry) : Option Inp :=
  match en.1 with
  | Option.none => Option.none
  | some inp =>
    let d0 := [(pystr "input", PyVal.dict inp)]
    let d1 :=
      if en.2.1.isNone || !(dumpVal (some cls) encFuel en.2.1).isSome then d0
      else d0 ++ [(pystr "prediction", en.2.1)]
    let d2 :=
      if (dumpVal (some cls) encFuel en.2.2.1).isSome then d1 ++ [(pystr "target", en.2.2.1)]
      else d1
    let d3 := if en.2.2.2.isNone then d2 else d2 ++ [(pystr "score", en.2.2.2)]
    some d3

/-- The serialized line for one entry, or nothing when the entry raises. -/
def lineOf (cls : TensorAndNumpyEncoder) (en : Entry) : Option (List Nat) :=
  (lineDictOf cls en).bind fun d => dumpVal (some cls) lineFuel (.dict d)

/-- The write loop over the entries: each line is appended to the inferences
file; an entry that raises stops the loop, leaving the lines written so
far. -/
def infLoop (cls : TensorAndNumpyEncoder) (fname : List Nat) :
    List Entry → List Nat → FS → List FS × FS × Bool
  | [], _, fs => ([], fs, false)
  | en :: rest, acc, fs =>
    match lineOf cls en with
    | Option.none => ([], fs, true)
    | some line =>
      let acc2 := acc ++ line ++ [10]
      let fs2 := FS.write fs fname acc2
      let r := infLoop cls fname rest acc2 fs2
      (fs2 :: r.1, r.2)

/-- The inferences block of JSONLogger.__call__: opens the inferences file,
applies itertools.islice when write_n_results is a non-zero number (a negative
value makes islice raise ValueError immediately), and writes one line per
remaining entry. -/
def infPhase (lg : JSONLogger) (task : List Nat) (step : Int) (dataset : List Inp)
    (inferences : List (List Nat × List PyVal)) (targets : List PyVal) (fs : FS) :
    List FS × FS × Bool :=
  let iname := infFnameOf lg task step
  let fs4 := FS.write fs iname []
  let entries := zipLongest4 dataset (mapGet inferences (pystr "predictions") []) targets
    (mapGet inferences (pystr "scores") [])
  match lg.write_n_results with
  | some n =>
    if n < 0 then ([fs4], fs4, true)
    else
      let r := infLoop lg.json_encoder iname (entries.take n.toNat) [] fs4
      (fs4 :: r.1, r.2)
  | Option.none =>
    let r := infLoop lg.json_encoder iname entries [] fs4
    (fs4 :: r.1, r.2)

/-- Observable outcome of JSONLogger.__call__: the final filesystem, every
intermediate filesystem state in order, and whether an exception escaped. -/
structure CallOut where
  fs : FS
  trace : List FS
  raised : Bool

/-- JSONLogger.__call__ from loggers.py: substitute the dummy step -1 when
step is missing, append the metrics line through the tmp-file-and-rename
sequence, return early when write_n_results is 0, and otherwise write the
inference lines. -/
def JSONLogger.call (lg : JSONLogger) (task : List Nat) (step? : Option Int)
    (metrics : List (List Nat × MetricValue)) (dataset : List Inp)
    (inferences : List (List Nat × List PyVal)) (targets : List PyVal) (fs : FS) : CallOut :=
  let step := step?.getD (-1)
  let m := metricsPhase lg task step metrics fs
  if m.2.2 then ⟨m.2.1, m.1, true⟩
  else if lg.write_n_results = some 0 then ⟨m.2.1, m.1, false⟩
  else
    let r := infPhase lg task step dataset inferences targets m.2.1
    ⟨r.2.1, m.1 ++ r.1, r.2.2⟩

mutual
/-- Whether a value is a tree of JSON-native Python values, the shape of a
JSON-serializable return. -/
def isNativeTree : PyVal → Bool
  | .none => true
  | .bool _ => true
  | .int _ => true
  | .float _ => true
  | .str _ => true
  | .list l => isNativeList l
  | .dict d => isNativeDict d
  | _ => false
def isNativeList : List PyVal → Bool
  | [] => true
  | v :: r => isNativeTree v && isNativeList r
def isNativeDict : List (List Nat × PyVal) → Bool
  | [] => true
  | p :: r => isNativeTree p.2 && isNativeDict r
end

/-- The values json.dumps delegates to the default method: everything it
cannot serialize natively. -/
def PyVal.delegated : PyVal → Bool
  | .ndarray _ => true
  | .npScalar _ _ => true
  | .npBool _ => true
  | .tfTensor _ => true
  | .bytes _ => true
  | .other _ => true
  | _ => false

/-- Whether a value is outside every type the encoder handles. -/
def PyVal.isOther : PyVal → Bool
  | .other _ => true
  | _ => false

theorem castBf16_size (a : Nd) : (castBf16 a).size = a.size := by
  unfold castBf16 setDtype Nd.size
  split <;> rfl

theorem castBf16_shape (a : Nd) : (castBf16 a).shape = a.shape := by
  unfold castBf16 setDtype
  split <;> rfl

theorem utf8DecodeAux_ascii : ∀ (fuel : Nat) (bs : List Nat), bs.length < fuel →
    (∀ b ∈ bs, b < 128) → utf8DecodeAux fuel bs = some bs
  | 0, bs, hlen, _ => absurd hlen (by omega)
  | _ + 1, [], _, _ => rfl
  | fuel + 1, b :: rest, hlen, h => by
    have hb : b < 128 := h b (List.mem_cons_self _ _)
    have ih := utf8DecodeAux_ascii fuel rest (by simpa using Nat.lt_of_succ_lt_succ hlen)
      fun x hx => h x (List.mem_cons_of_mem _ hx)
    have hone : utf8DecodeOne b rest = some (b, rest) := by
      unfold utf8DecodeOne
      rw [if_pos hb]
    rw [utf8DecodeAux, hone]
    simp [ih]

theorem utf8Decode_ascii (bs : List Nat) (h : ∀ b ∈ bs, b < 128) : utf8Decode bs = some bs :=
  utf8DecodeAux_ascii (bs.length + 1) bs (Nat.lt_succ_self _) h

theorem b64Char_lt128 (n : Nat) : b64Char n < 128 := by
  have h : ∀ x ∈ b64Alphabet, x < 128 := by decide
  unfold b64Char List.getD
  cases hg : b64Alphabet.get? n with
  | none => simp
  | some x => simpa using h x (List.get?_mem hg)

theorem b64encode_lt128 : ∀ bs : List Nat, ∀ x ∈ b64encode bs, x < 128
  | [] => by simp [b64encode]
  | [a] => by
    intro x hx
    simp only [b64encode, List.mem_cons, List.not_mem_nil, or_false] at hx
    rcases hx with rfl | rfl | rfl | rfl
    · exact b64Char_lt128 _
    · exact b64Char_lt128 _
    · norm_num
    · norm_num
  | [a, b] => by
    intro x hx
    simp only [b64encode, List.mem_cons, List.not_mem_nil, or_false] at hx
    rcases hx with rfl | rfl | rfl | rfl
    · exact b64Char_lt128 _
    · exact b64Char_lt128 _
    · exact b64Char_lt128 _
    · norm_num
  | a :: b :: c :: rest => by
    intro x hx
    simp only [b64encode, List.cons_append, List.nil_append, List.mem_cons] at hx
    rcases hx with rfl | rfl | rfl | rfl | hmem
    · exact b64Char_lt128 _
    · exact b64Char_lt128 _
    · exact b64Char_lt128 _
    · exact b64Char_lt128 _
    · exact b64encode_lt128 rest x hmem

theorem utf8Decode_b64 (bs : List Nat) : utf8Decode (b64encode bs) = some (b64encode bs) :=
  utf8Decode_ascii _ (b64encode_lt128 bs)

theorem isNativeList_all : ∀ l : List PyVal,
    (∀ v ∈ l, isNativeTree v = true) → isNativeList l = true
  | [] => fun _ => by simp [isNativeList]
  | v :: r => fun h => by
    have h1 := h v (List.mem_cons_self _ _)
    have h2 := isNativeList_all r fun x hx => h x (List.mem_cons_of_mem _ hx)
    simp [isNativeList, h1, h2]

theorem toNested_native (dt : Dtype) : ∀ (sh : List Nat) (data : List Int),
    isNativeTree (toNested dt sh data) = true
  | [], data => by cases dt <;> simp [toNested, leafVal, isNativeTree]
  | n :: rest, data => by
    have h : ∀ v ∈ (List.range n).map
        (fun i => toNested dt rest ((data.drop (i * rest.prod)).take rest.prod)),
        isNativeTree v = true := by
      intro v hv
      obtain ⟨i, _, rfl⟩ := List.mem_map.mp hv
      exact toNested_native dt rest _
    simp only [toNested, isNativeTree]
    exact isNativeList_all _ h

theorem default_ndarray_ok (e : TensorAndNumpyEncoder) (a : Nd) :
    ∃ v, e.default (.ndarray a) = .ok v ∧ isNativeTree v = true := by
  by_cases h : ((castBf16 a).size : Int) ≤ e.max_ndarray_size
  · refine ⟨(castBf16 a).tolist, ?_, ?_⟩
    · simp only [TensorAndNumpyEncoder.default]
      rw [if_pos h]
    · simpa [Nd.tolist] using toNested_native (castBf16 a).dtype (castBf16 a).shape (castBf16 a).data
  · refine ⟨.str (ndSummary a.dtype (castBf16 a)), ?_, by simp [isNativeTree]⟩
    simp only [TensorAndNumpyEncoder.default]
    rw [if_neg h]

theorem default_npScalar_ok (e : TensorAndNumpyEncoder) (dt : Dtype) (x : Int) :
    ∃ v, e.default (.npScalar dt x) = .ok v ∧ isNativeTree v = true := by
  refine ⟨npItem dt x, ?_, ?_⟩
  · cases dt <;> simp [TensorAndNumpyEncoder.default, npItem]
  · cases dt <;> simp [npItem, isNativeTree]

theorem castBf16_idem (a : Nd) : castBf16 (castBf16 a) = castBf16 a := by
  unfold castBf16 setDtype
  by_cases h : a.dtype = Dtype.bfloat16 <;> simp [h]

theorem default_tfTensor_eq (e : TensorAndNumpyEncoder) (a : Nd) :
    e.default (.tfTensor a) = e.default (tensorToNumpy (castBf16 a)) := by
  by_cases hs : (castBf16 a).shape = []
  · cases hdt : (castBf16 a).dtype <;>
      simp [TensorAndNumpyEncoder.default, tensorToNumpy, hs, hdt]
  · simp [TensorAndNumpyEncoder.default, tensorToNumpy, hs]

theorem default_tfTensor_ok (e : TensorAndNumpyEncoder) (a : Nd) :
    ∃ v, e.default (.tfTensor a) = .ok v ∧ isNativeTree v = true := by
  rw [default_tfTensor_eq]
  by_cases hs : (castBf16 a).shape = []
  · have h0 : tensorToNumpy (castBf16 a) =
        (match (castBf16 a).dtype with
          | Dtype.bool_ => PyVal.npBool ((castBf16 a).data.headI != 0)
          | dt => PyVal.npScalar dt ((castBf16 a).data.headI)) := by
      unfold tensorToNumpy
      rw [if_pos hs]
    cases hdt : (castBf16 a).dtype with
    | bool_ =>
      rw [h0, hdt]
      exact ⟨.bool ((castBf16 a).data.headI != 0),
        by simp [TensorAndNumpyEncoder.default], by simp [isNativeTree]⟩
    | int32 => rw [h0, hdt]; exact default_npScalar_ok e Dtype.int32 _
    | int64 => rw [h0, hdt]; exact default_npScalar_ok e Dtype.int64 _
    | float32 => rw [h0, hdt]; exact default_npScalar_ok e Dtype.float32 _
    | float64 => rw [h0, hdt]; exact default_npScalar_ok e Dtype.float64 _
    | bfloat16 => rw [h0, hdt]; exact default_npScalar_ok e Dtype.bfloat16 _
  · have h0 : tensorToNumpy (castBf16 a) = .ndarray (castBf16 a) := by
      unfold tensorToNumpy
      rw [if_neg hs]
    rw [h0]
    exact default_ndarray_ok e _

/-- C1: for every numpy ndarray passed to TensorAndNumpyEncoder.default, when
obj.size is at most max_ndarray_size (whose default is 32) the encoder returns
obj.tolist(), the full array as a nested list of Python-native values; when
obj.size exceeds max_ndarray_size it returns the summary string, which
contains the type name ndarray, the shape, the original dtype and the first
five elements of the flattened array, never the full contents. -/
theorem C1_default_truncates_large_ndarrays (e : TensorAndNumpyEncoder) (a : Nd) :
    ((a.size : Int) ≤ e.max_ndarray_size →
      e.default (.ndarray a) = .ok (castBf16 a).tolist)
    ∧ (e.max_ndarray_size < (a.size : Int) →
      e.default (.ndarray a) = .ok (.str (ndSummary a.dtype (castBf16 a)))
      ∧ (∃ u v, ndSummary a.dtype (castBf16 a) = u ++ pystr "ndarray" ++ v)
      ∧ (∃ u v, ndSummary a.dtype (castBf16 a) = u ++ shapeRepr a.shape ++ v)
      ∧ (∃ u v, ndSummary a.dtype (castBf16 a) = u ++ dtypeStr a.dtype ++ v)
      ∧ (∃ u v, ndSummary a.dtype (castBf16 a) = u ++ firstFiveStr (castBf16 a) ++ v))
    ∧ ({} : TensorAndNumpyEncoder).max_ndarray_size = 32 := by
  have hsz : ((castBf16 a).size : Int) = (a.size : Int) := by rw [castBf16_size]
  refine ⟨?_, ?_, rfl⟩
  · intro h
    simp only [TensorAndNumpyEncoder.default]
    rw [if_pos (by rw [hsz]; exact h)]
  · intro h
    have hneg : ¬ ((castBf16 a).size : Int) ≤ e.max_ndarray_size := by
      rw [hsz]; exact not_le.mpr h
    refine ⟨?_, ?_, ?_, ?_, ?_⟩
    · simp only [TensorAndNumpyEncoder.default]
      rw [if_neg hneg]
    · refine ⟨[], pystr "(shape=" ++ shapeRepr a.shape ++ pystr ", dtype=" ++ dtypeStr a.dtype ++
        pystr "); first: " ++ firstFiveStr (castBf16 a) ++ pystr " ...", ?_⟩
      have hlit : pystr "ndarray(shape=" = pystr "ndarray" ++ pystr "(shape=" := by decide
      simp [ndSummary, castBf16_shape, hlit, List.append_assoc]
    · exact ⟨pystr "ndarray(shape=", pystr ", dtype=" ++ dtypeStr a.dtype ++
        pystr "); first: " ++ firstFiveStr (castBf16 a) ++ pystr " ...",
        by simp [ndSummary, castBf16_shape, List.append_assoc]⟩
    · exact ⟨pystr "ndarray(shape=" ++ shapeRepr a.shape ++ pystr ", dtype=",
        pystr "); first: " ++ firstFiveStr (castBf16 a) ++ pystr " ...",
        by simp [ndSummary, castBf16_shape, List.append_assoc]⟩
    · exact ⟨pystr "ndarray(shape=" ++ shapeRepr a.shape ++ pystr ", dtype=" ++
        dtypeStr a.dtype ++ pystr "); first: ", pystr " ...",
        by simp [ndSummary, castBf16_shape, List.append_assoc]⟩

/-- Witness for C1 at concrete arrays: a 2-element int32 array is returned in
full as a list, a 33-element int32 array is summarized. -/
theorem C1_default_truncates_large_ndarrays_witness :
    TensorAndNumpyEncoder.default {} (.ndarray ⟨[2], Dtype.int32, [1, 2]⟩) =
      .ok (castBf16 ⟨[2], Dtype.int32, [1, 2]⟩).tolist
    ∧ TensorAndNumpyEncoder.default {} (.ndarray ⟨[33], Dtype.int32, (List.range 33).map Int.ofNat⟩) =
      .ok (.str (ndSummary Dtype.int32 (castBf16 ⟨[33], Dtype.int32, (List.range 33).map Int.ofNat⟩))) :=
  ⟨(C1_default_truncates_large_ndarrays {} ⟨[2], Dtype.int32, [1, 2]⟩).1 (by decide),
    (((C1_default_truncates_large_ndarrays {}
      ⟨[33], Dtype.int32, (List.range 33).map Int.ofNat⟩).2.1) (by decide)).1⟩

/-- C2: TensorAndNumpyEncoder.default returns a JSON-serializable value (a
tree of Python-native values) without raising for every tf.Tensor, numpy
ndarray and numpy numeric or boolean scalar (bfloat16 included), and among the
values json.dumps delegates to it, it raises TypeError exactly for the objects
outside the handled types. -/
theorem C2_default_raises_exactly_on_unhandled (e : TensorAndNumpyEncoder) :
    (∀ a : Nd, ∃ v, e.default (.tfTensor a) = .ok v ∧ isNativeTree v = true)
    ∧ (∀ a : Nd, ∃ v, e.default (.ndarray a) = .ok v ∧ isNativeTree v = true)
    ∧ (∀ dt x, ∃ v, e.default (.npScalar dt x) = .ok v ∧ isNativeTree v = true)
    ∧ (∀ b, ∃ v, e.default (.npBool b) = .ok v ∧ isNativeTree v = true)
    ∧ (∀ obj : PyVal, obj.delegated = true →
        (e.default obj = .error () ↔ obj.isOther = true)) := by
  refine ⟨default_tfTensor_ok e, default_ndarray_ok e, default_npScalar_ok e,
    fun b => ⟨.bool b, by simp [TensorAndNumpyEncoder.default], by simp [isNativeTree]⟩, ?_⟩
  intro obj hd
  cases obj <;> simp [PyVal.delegated] at hd
  case ndarray a =>
    obtain ⟨v, hv, _⟩ := default_ndarray_ok e a
    simp [hv, PyVal.isOther]
  case npScalar dt x =>
    obtain ⟨v, hv, _⟩ := default_npScalar_ok e dt x
    simp [hv, PyVal.isOther]
  case npBool b =>
    simp [TensorAndNumpyEncoder.default, PyVal.isOther]
  case tfTensor a =>
    obtain ⟨v, hv, _⟩ := default_tfTensor_ok e a
    simp [hv, PyVal.isOther]
  case bytes bs =>
    cases h : utf8Decode bs <;> simp [TensorAndNumpyEncoder.default, h, PyVal.isOther]
  case other tag =>
    simp [TensorAndNumpyEncoder.default, PyVal.isOther]

/-- Witness for C2: at the concrete unhandled object, the encoder raises, and
the equivalence instantiates. -/
theorem C2_default_raises_exactly_on_unhandled_witness :
    (TensorAndNumpyEncoder.default {} (.other 0) = .error ()) ↔
      (PyVal.other 0).isOther = true :=
  (C2_default_raises_exactly_on_unhandled {}).2.2.2.2 (.other 0) rfl

/-- C10: encoding bytes never raises: bytes that decode as UTF-8 yield the
decoded string, all other bytes yield their base64 encoding (itself bytes),
and re-entering the encoder on those base64 bytes yields the corresponding
ASCII string. -/
theorem C10_default_bytes_never_raises (e : TensorAndNumpyEncoder) (bs : List Nat) :
    (∀ cps, utf8Decode bs = some cps → e.default (.bytes bs) = .ok (.str cps))
    ∧ (utf8Decode bs = Option.none →
      e.default (.bytes bs) = .ok (.bytes (b64encode bs))
      ∧ e.default (.bytes (b64encode bs)) = .ok (.str (b64encode bs))) := by
  constructor
  · intro cps h
    simp [TensorAndNumpyEncoder.default, h]
  · intro h
    exact ⟨by simp [TensorAndNumpyEncoder.default, h],
      by simp [TensorAndNumpyEncoder.default, utf8Decode_b64]⟩

/-- Witness for C10: UTF-8 text is decoded, the byte 255 is base64 encoded and
its encoding round-trips through the encoder as an ASCII string. -/
theorem C10_default_bytes_never_raises_witness :
    TensorAndNumpyEncoder.default {} (.bytes (pystr "ab")) = .ok (.str (pystr "ab"))
    ∧ TensorAndNumpyEncoder.default {} (.bytes [255]) = .ok (.bytes (b64encode [255]))
    ∧ TensorAndNumpyEncoder.default {} (.bytes (b64encode [255])) = .ok (.str (b64encode [255])) :=
  ⟨(C10_default_bytes_never_raises {} (pystr "ab")).1 (pystr "ab") (by decide),
    ((C10_default_bytes_never_raises {} [255]).2 (by decide)).1,
    ((C10_default_bytes_never_raises {} [255]).2 (by decide)).2⟩

/-- Extract the wrapped value of a Scalar metric; only meaningful under the
hypothesis that the metric is a Scalar. -/
def MetricValue.scalarValue : MetricValue → PyNum
  | .scalar s => s.value
  | _ => .int 0

theorem tbLoop_all_scalar (step : Int) : ∀ metrics : List (List Nat × MetricValue),
    (∀ p ∈ metrics, ∃ s, p.2 = MetricValue.scalar s) →
    tbLoop step metrics =
      ((metrics.map fun p => WAction.addSummary (pystr "eval/" ++ p.1) p.2.scalarValue step),
        Option.none)
  | [], _ => rfl
  | (name, v) :: rest, h => by
    obtain ⟨s, hs⟩ := h (name, v) (List.mem_cons_self _ _)
    have ih := tbLoop_all_scalar step rest fun p hp => h p (List.mem_cons_of_mem _ hp)
    subst hs
    simp [tbLoop, ih, MetricValue.scalarValue]

theorem tbLoop_err (step : Int) : ∀ metrics : List (List Nat × MetricValue),
    (∃ p ∈ metrics, ∀ s, p.2 ≠ MetricValue.scalar s) →
    ∃ msg, (tbLoop step metrics).2 = some msg
  | [], h => by simp at h
  | (name, v) :: rest, h => by
    cases v with
    | scalar s =>
      have hrest : ∃ p ∈ rest, ∀ s, p.2 ≠ MetricValue.scalar s := by
        obtain ⟨p, hp, hne⟩ := h
        rcases List.mem_cons.mp hp with rfl | hmem
        · exact absurd rfl (hne s)
        · exact ⟨p, hmem, hne⟩
      obtain ⟨msg, hmsg⟩ := tbLoop_err step rest hrest
      exact ⟨msg, by simp [tbLoop, hmsg]⟩
    | text t => exact ⟨valueErrMsg name (.text t), by simp [tbLoop]⟩
    | image i => exact ⟨valueErrMsg name (.image i), by simp [tbLoop]⟩
    | audio a => exact ⟨valueErrMsg name (.audio a), by simp [tbLoop]⟩
    | histogram hg => exact ⟨valueErrMsg name (.histogram hg), by simp [tbLoop]⟩
    | generic g => exact ⟨valueErrMsg name (.generic g), by simp [tbLoop]⟩

/-- C5: TensorBoardLogger.__call__ raises ValueError when some metric value is
not a Scalar; when every value is a Scalar it emits, per metric, one summary
tagged eval/(metric name) whose simple_value is the wrapped value at the given
step, on the summary writer of the task, and flushes that writer last. -/
theorem C5_tensorboard_requires_scalars (task : List Nat) (step? : Option Int)
    (metrics : List (List Nat × MetricValue)) :
    ((∃ p ∈ metrics, ∀ s, p.2 ≠ MetricValue.scalar s) →
      ∃ msg, (TensorBoardLogger.call task step? metrics).error = some msg)
    ∧ ((∀ p ∈ metrics, ∃ s, p.2 = MetricValue.scalar s) →
      (TensorBoardLogger.call task step? metrics).error = Option.none
      ∧ (TensorBoardLogger.call task step? metrics).actions =
        (metrics.map fun p =>
          WAction.addSummary (pystr "eval/" ++ p.1) p.2.scalarValue (step?.getD (-1)))
          ++ [WAction.flush]
      ∧ (TensorBoardLogger.call task step? metrics).writerTask = task) := by
  constructor
  · intro h
    obtain ⟨msg, hmsg⟩ := tbLoop_err (step?.getD (-1)) metrics h
    refine ⟨msg, ?_⟩
    simp only [TensorBoardLogger.call]
    rcases hl : tbLoop (step?.getD (-1)) metrics with ⟨acts, err⟩
    rw [hl] at hmsg
    simp at hmsg
    rw [hmsg]
  · intro h
    have hl := tbLoop_all_scalar (step?.getD (-1)) metrics h
    simp only [TensorBoardLogger.call, hl]
    exact ⟨trivial, trivial, trivial⟩

/-- Witness for C5: a single Text metric raises, a single Scalar metric is
written and flushed. -/
theorem C5_tensorboard_requires_scalars_witness :
    (∃ msg, (TensorBoardLogger.call (pystr "t") (some 3)
      [(pystr "b", MetricValue.text ⟨Sum.inl []⟩)]).error = some msg)
    ∧ ((TensorBoardLogger.call (pystr "t") (some 3)
        [(pystr "a", MetricValue.scalar ⟨PyNum.int 1⟩)]).error = Option.none
      ∧ (TensorBoardLogger.call (pystr "t") (some 3)
        [(pystr "a", MetricValue.scalar ⟨PyNum.int 1⟩)]).actions =
        ([(pystr "a", MetricValue.scalar ⟨PyNum.int 1⟩)].map fun p =>
          WAction.addSummary (pystr "eval/" ++ p.1) p.2.scalarValue ((some 3).getD (-1)))
          ++ [WAction.flush]
      ∧ (TensorBoardLogger.call (pystr "t") (some 3)
        [(pystr "a", MetricValue.scalar ⟨PyNum.int 1⟩)]).writerTask = pystr "t") :=
  ⟨(C5_tensorboard_requires_scalars (pystr "t") (some 3)
      [(pystr "b", MetricValue.text ⟨Sum.inl []⟩)]).1
      ⟨(pystr "b", MetricValue.text ⟨Sum.inl []⟩), List.mem_cons_self _ _,
        fun _ h => MetricValue.noConfusion h⟩,
    (C5_tensorboard_requires_scalars (pystr "t") (some 3)
      [(pystr "a", MetricValue.scalar ⟨PyNum.int 1⟩)]).2
      fun p hp => by
        rcases List.mem_singleton.mp hp with rfl
        exact ⟨⟨PyNum.int 1⟩, rfl⟩⟩

/-- C7: the metrics module defines the MetricValue base type with exactly the
six dataclass variants Scalar (int-or-float value), Text (str-or-bytes
textdata), Image (ndarray image, max_outputs defaulting to 3), Audio (ndarray
audiodata, sample_rate defaulting to 44100, max_outputs defaulting to 3),
Histogram (ndarray values, optional bins defaulting to None) and Generic
(ndarray tensor plus summary metadata), each embedding injectively into
MetricValue. -/
theorem C7_metric_value_variants :
    (∀ v : MetricValue, (∃ s, v = .scalar s) ∨ (∃ t, v = .text t) ∨ (∃ i, v = .image i) ∨
      (∃ a, v = .audio a) ∨ (∃ h, v = .histogram h) ∨ (∃ g, v = .generic g))
    ∧ (∀ x : Scalar, (∃ i, x.value = PyNum.int i) ∨ (∃ r, x.value = PyNum.float r))
    ∧ (∀ t : Text, (∃ s, t.textdata = Sum.inl s) ∨ (∃ b, t.textdata = Sum.inr b))
    ∧ (∀ a : Nd, ({ image := a } : Image).max_outputs = 3)
    ∧ (∀ a : Nd, ({ audiodata := a } : Audio).sample_rate = 44100
        ∧ ({ audiodata := a } : Audio).max_outputs = 3)
    ∧ (∀ a : Nd, ({ values := a } : Histogram).bins = Option.none)
    ∧ (∀ g : Generic, ∃ (t : Nd) (m : SummaryMetadata), g = ⟨t, m⟩)
    ∧ (∀ s1 s2, MetricValue.scalar s1 = .scalar s2 → s1 = s2)
    ∧ (∀ t1 t2, MetricValue.text t1 = .text t2 → t1 = t2)
    ∧ (∀ i1 i2, MetricValue.image i1 = .image i2 → i1 = i2)
    ∧ (∀ a1 a2, MetricValue.audio a1 = .audio a2 → a1 = a2)
    ∧ (∀ h1 h2, MetricValue.histogram h1 = .histogram h2 → h1 = h2)
    ∧ (∀ g1 g2, MetricValue.generic g1 = .generic g2 → g1 = g2) := by
  refine ⟨?_, ?_, ?_, fun _ => rfl, fun _ => ⟨rfl, rfl⟩, fun _ => rfl, ?_, ?_, ?_, ?_, ?_, ?_, ?_⟩
  · intro v
    cases v with
    | scalar s => exact Or.inl ⟨s, rfl⟩
    | text t => exact Or.inr (Or.inl ⟨t, rfl⟩)
    | image i => exact Or.inr (Or.inr (Or.inl ⟨i, rfl⟩))
    | audio a => exact Or.inr (Or.inr (Or.inr (Or.inl ⟨a, rfl⟩)))
    | histogram h => exact Or.inr (Or.inr (Or.inr (Or.inr (Or.inl ⟨h, rfl⟩))))
    | generic g => exact Or.inr (Or.inr (Or.inr (Or.inr (Or.inr ⟨g, rfl⟩))))
  · intro x
    rcases x with ⟨v⟩
    cases v with
    | int i => exact Or.inl ⟨i, rfl⟩
    | float r => exact Or.inr ⟨r, rfl⟩
  · intro t
    rcases t with ⟨d⟩
    cases d with
    | inl s => exact Or.inl ⟨s, rfl⟩
    | inr b => exact Or.inr ⟨b, rfl⟩
  · intro g
    rcases g with ⟨t, m⟩
    exact ⟨t, m, rfl⟩
  · intro s1 s2 h
    injection h
  · intro t1 t2 h
    injection h
  · intro i1 i2 h
    injection h
  · intro a1 a2 h
    injection h
  · intro h1 h2 h
    injection h
  · intro g1 g2 h
    injection h

/-- Witness for C7: the injectivity components instantiated at concrete
variant values. -/
theorem C7_metric_value_variants_witness :
    (Scalar.mk (PyNum.int 0) = Scalar.mk (PyNum.int 0))
    ∧ (Text.mk (Sum.inl []) = Text.mk (Sum.inl []))
    ∧ (Image.mk ⟨[], Dtype.int32, []⟩ 3 = Image.mk ⟨[], Dtype.int32, []⟩ 3)
    ∧ (Audio.mk ⟨[], Dtype.int32, []⟩ 44100 3 = Audio.mk ⟨[], Dtype.int32, []⟩ 44100 3)
    ∧ (Histogram.mk ⟨[], Dtype.int32, []⟩ Option.none =
        Histogram.mk ⟨[], Dtype.int32, []⟩ Option.none)
    ∧ (Generic.mk ⟨[], Dtype.int32, []⟩ ⟨0⟩ = Generic.mk ⟨[], Dtype.int32, []⟩ ⟨0⟩) :=
  ⟨C7_metric_value_variants.2.2.2.2.2.2.2.1 _ _ rfl,
    C7_metric_value_variants.2.2.2.2.2.2.2.2.1 _ _ rfl,
    C7_metric_value_variants.2.2.2.2.2.2.2.2.2.1 _ _ rfl,
    C7_metric_value_variants.2.2.2.2.2.2.2.2.2.2.1 _ _ rfl,
    C7_metric_value_variants.2.2.2.2.2.2.2.2.2.2.2.1 _ _ rfl,
    C7_metric_value_variants.2.2.2.2.2.2.2.2.2.2.2.2 _ _ rfl⟩

/-- C9: both loggers accept a missing step and behave exactly as if the dummy
step -1 had been passed. -/
theorem C9_step_none_uses_dummy_minus_one (task : List Nat)
    (metrics : List (List Nat × MetricValue)) (lg : JSONLogger) (dataset : List Inp)
    (inferences : List (List Nat × List PyVal)) (targets : List PyVal) (fs : FS) :
    TensorBoardLogger.call task Option.none metrics =
      TensorBoardLogger.call task (some (-1)) metrics
    ∧ lg.call task Option.none metrics dataset inferences targets fs =
      lg.call task (some (-1)) metrics dataset inferences targets fs :=
  ⟨rfl, rfl⟩

theorem natDigitsAux_head : ∀ fuel n : Nat, n < fuel →
    ∃ c, (natDigitsAux fuel n).head? = some c ∧ 48 ≤ c ∧ c ≤ 57
  | 0, _, h => absurd h (by omega)
  | fuel + 1, n, _ => by
    by_cases h10 : n < 10
    · exact ⟨48 + n, by rw [natDigitsAux, if_pos h10]; rfl, by omega, by omega⟩
    · have hdiv : n / 10 < fuel := by
        have h1 : n / 10 < n := Nat.div_lt_self (by omega) (by omega)
        omega
      obtain ⟨c, hc, hc1, hc2⟩ := natDigitsAux_head fuel (n / 10) hdiv
      refine ⟨c, ?_, hc1, hc2⟩
      rw [natDigitsAux, if_neg h10]
      rcases hl : natDigitsAux fuel (n / 10) with _ | ⟨a, t⟩
      · rw [hl] at hc
        simp at hc
      · rw [hl] at hc
        simp at hc
        simp [hc]

theorem pad6_head (s : Int) : ∃ c, (pad6 s).head? = some c ∧ (c = 45 ∨ (48 ≤ c ∧ c ≤ 57)) := by
  by_cases hneg : s < 0
  · exact ⟨45, by rw [pad6, if_pos hneg]; rfl, Or.inl rfl⟩
  · rw [pad6, if_neg hneg]
    rcases hk : 6 - (natDigits s.toNat).length with _ | k
    · rw [List.replicate_zero, List.nil_append]
      obtain ⟨c, hc, hc1, hc2⟩ := natDigitsAux_head (s.toNat + 1) s.toNat (Nat.lt_succ_self _)
      exact ⟨c, hc, Or.inr ⟨hc1, hc2⟩⟩
    · rw [List.replicate_succ, List.cons_append]
      exact ⟨48, rfl, Or.inr ⟨by omega, by omega⟩⟩

theorem tmp_ne_mname (m : List Nat) : ¬ m ++ pystr ".tmp" = m := by
  intro h
  have hlen := congrArg List.length h
  rw [List.length_append] at hlen
  have h4 : (pystr ".tmp").length = 4 := rfl
  omega

theorem metrics_head_ne_pad6 (step : Int) (t1 t2 : List Nat) :
    ¬ pystr "metrics.jsonl" ++ t1 = pad6 step ++ t2 := by
  intro h
  obtain ⟨c, hc, hor⟩ := pad6_head step
  have h1 : (pystr "metrics.jsonl" ++ t1).head? = some 109 := rfl
  have h2 : (pad6 step ++ t2).head? = some c := by
    rcases hp : pad6 step with _ | ⟨a, r⟩
    · rw [hp] at hc
      simp at hc
    · rw [hp] at hc
      simp at hc
      simp [hc]
  rw [h, h2] at h1
  have h9 : c = 109 := Option.some.inj h1
  rcases hor with h' | h' <;> omega

theorem mname_ne_iname (lg : JSONLogger) (task : List Nat) (step : Int) :
    ¬ metricsFnameOf lg task = infFnameOf lg task step := by
  unfold metricsFnameOf infFnameOf pathJoin
  intro h
  simp only [List.append_assoc] at h
  have h1 := List.append_cancel_left h
  have h2 := List.append_cancel_left h1
  have h3 := List.append_cancel_left h2
  have h4 : pystr "-metrics.jsonl" = 45 :: pystr "metrics.jsonl" := rfl
  have h5 : pystr "-" ++ (pad6 step ++ pystr ".jsonl") = 45 :: (pad6 step ++ pystr ".jsonl") := rfl
  rw [h4, h5] at h3
  have h6 : pystr "metrics.jsonl" = pad6 step ++ pystr ".jsonl" := by injection h3
  have h7 : pystr "metrics.jsonl" ++ [] = pad6 step ++ pystr ".jsonl" := by
    rw [List.append_nil]
    exact h6
  exact metrics_head_ne_pad6 step [] (pystr ".jsonl") h7

theorem tmpname_ne_iname (lg : JSONLogger) (task : List Nat) (step : Int) :
    ¬ metricsFnameOf lg task ++ pystr ".tmp" = infFnameOf lg task step := by
  unfold metricsFnameOf infFnameOf pathJoin
  intro h
  simp only [List.append_assoc] at h
  have h1 := List.append_cancel_left h
  have h2 := List.append_cancel_left h1
  have h3 := List.append_cancel_left h2
  have h4 : pystr "-metrics.jsonl" ++ pystr ".tmp" =
      45 :: (pystr "metrics.jsonl" ++ pystr ".tmp") := rfl
  have h5 : pystr "-" ++ (pad6 step ++ pystr ".jsonl") = 45 :: (pad6 step ++ pystr ".jsonl") := rfl
  rw [h4, h5] at h3
  have h6 : pystr "metrics.jsonl" ++ pystr ".tmp" = pad6 step ++ pystr ".jsonl" := by injection h3
  exact metrics_head_ne_pad6 step (pystr ".tmp") (pystr ".jsonl") h6

theorem natDigitsAux_mem : ∀ fuel n x : Nat, x ∈ natDigitsAux fuel n → 48 ≤ x ∧ x ≤ 57
  | 0, n, x, h => by simp [natDigitsAux] at h
  | fuel + 1, n, x, h => by
    rw [natDigitsAux] at h
    by_cases h10 : n < 10
    · rw [if_pos h10] at h
      simp at h
      omega
    · rw [if_neg h10] at h
      rcases List.mem_append.mp h with h1 | h1
      · exact natDigitsAux_mem fuel (n / 10) x h1
      · simp at h1
        have hm : n % 10 < 10 := Nat.mod_lt _ (by omega)
        omega

theorem intRepr_no_nl (i : Int) : 10 ∉ intRepr i := by
  intro h
  unfold intRepr natDigits at h
  split at h
  · rcases List.mem_cons.mp h with h1 | h1
    · omega
    · have := natDigitsAux_mem _ _ _ h1
      omega
  · have := natDigitsAux_mem _ _ _ h
    omega

theorem hexDigit_ne_nl (n : Nat) : hexDigit n ≠ 10 := by
  unfold hexDigit
  split <;> omega

theorem escU_no_nl (n : Nat) : 10 ∉ escU n := by
  intro h
  simp only [escU, hex4, List.cons_append, List.nil_append, List.mem_cons,
    List.not_mem_nil, or_false] at h
  rcases h with h | h | h | h | h | h
  · omega
  · omega
  · exact hexDigit_ne_nl _ h.symm
  · exact hexDigit_ne_nl _ h.symm
  · exact hexDigit_ne_nl _ h.symm
  · exact hexDigit_ne_nl _ h.symm

theorem escapeChar_no_nl (c : Nat) : 10 ∉ escapeChar c := by
  intro h
  unfold escapeChar at h
  split_ifs at h
  all_goals first
    | (simp only [List.mem_cons, List.not_mem_nil, or_false] at h; omega)
    | exact escU_no_nl _ h
    | (rcases List.mem_append.mp h with h | h <;> exact escU_no_nl _ h)

theorem strDump_no_nl (s : List Nat) : 10 ∉ strDump s := by
  intro h
  unfold strDump at h
  rcases List.mem_cons.mp h with h | h
  · omega
  rcases List.mem_append.mp h with h | h
  · obtain ⟨l, hl, hx⟩ := List.mem_flatten.mp h
    obtain ⟨cch, _, rfl⟩ := List.mem_map.mp hl
    exact escapeChar_no_nl _ hx
  · simp at h

theorem joinSep_mem : ∀ (sep : List Nat) (parts : List (List Nat)) (x : Nat),
    x ∈ joinSep sep parts → x ∈ sep ∨ ∃ p ∈ parts, x ∈ p
  | _, [], x, h => by simp [joinSep] at h
  | _, [p], x, h => by
    exact Or.inr ⟨p, List.mem_singleton.mpr rfl, h⟩
  | sep, p :: q :: rest, x, h => by
    have hj : joinSep sep (p :: q :: rest) = p ++ sep ++ joinSep sep (q :: rest) := rfl
    rw [hj] at h
    rcases List.mem_append.mp h with h1 | h1
    · rcases List.mem_append.mp h1 with h2 | h2
      · exact Or.inr ⟨p, List.mem_cons_self _ _, h2⟩
      · exact Or.inl h2
    · rcases joinSep_mem sep (q :: rest) x h1 with h2 | ⟨r, hr, hx⟩
      · exact Or.inl h2
      · exact Or.inr ⟨r, List.mem_cons_of_mem _ hr, hx⟩

theorem optMapM_mem {α β : Type} (f : α → Option β) :
    ∀ (l : List α) (bs : List β), optMapM f l = some bs → ∀ b ∈ bs, ∃ a ∈ l, f a = some b
  | [], bs, h, b, hb => by
    simp only [optMapM, Option.some.injEq] at h
    subst h
    simp at hb
  | a :: l, bs, h, b, hb => by
    rw [optMapM] at h
    cases hfa : f a with
    | none =>
      rw [hfa, Option.none_bind] at h
      exact Option.noConfusion h
    | some y =>
      rw [hfa, Option.some_bind] at h
      cases hml : optMapM f l with
      | none =>
        rw [hml, Option.map_none'] at h
        exact Option.noConfusion h
      | some ys =>
        rw [hml, Option.map_some'] at h
        have hbs : bs = y :: ys := (Option.some.inj h).symm
        subst hbs
        rcases List.mem_cons.mp hb with rfl | hb2
        · exact ⟨a, List.mem_cons_self _ _, hfa⟩
        · obtain ⟨a2, ha2, hf2⟩ := optMapM_mem f l ys hml b hb2
          exact ⟨a2, List.mem_cons_of_mem _ ha2, hf2⟩

theorem dumpVal_delegated (cls : Option TensorAndNumpyEncoder) (fuel : Nat) (v : PyVal)
    (hv : v.delegated = true) :
    dumpVal cls (fuel + 1) v =
      match cls with
      | Option.none => Option.none
      | some e =>
        match e.default v with
        | .ok w => dumpVal cls fuel w
        | .error _ => Option.none := by
  cases v <;> first | rfl | simp [PyVal.delegated] at hv

theorem dumpVal_no_nl (cls : Option TensorAndNumpyEncoder) :
    ∀ (fuel : Nat) (v : PyVal) (s : List Nat), dumpVal cls fuel v = some s → 10 ∉ s
  | 0, v, s, h => by simp [dumpVal] at h
  | fuel + 1, v, s, h => by
    intro hmem
    by_cases hv : v.delegated = true
    · rw [dumpVal_delegated cls fuel v hv] at h
      cases cls with
      | none => exact Option.noConfusion h
      | some e =>
        have h2 : (match e.default v with
            | Except.ok w => dumpVal (some e) fuel w
            | Except.error _ => Option.none) = some s := h
        cases hd : e.default v with
        | error u =>
          rw [hd] at h2
          exact Option.noConfusion h2
        | ok w =>
          rw [hd] at h2
          exact dumpVal_no_nl (some e) fuel w s h2 hmem
    · cases v with
      | none =>
        simp only [dumpVal, Option.some.injEq] at h
        subst h
        exact absurd hmem (by decide)
      | bool b =>
        simp only [dumpVal, Option.some.injEq] at h
        subst h
        cases b
        · exact absurd hmem (by decide)
        · exact absurd hmem (by decide)
      | int i =>
        simp only [dumpVal, Option.some.injEq] at h
        subst h
        exact intRepr_no_nl i hmem
      | float x =>
        simp only [dumpVal, Option.some.injEq] at h
        subst h
        exact intRepr_no_nl x hmem
      | str t =>
        simp only [dumpVal, Option.some.injEq] at h
        subst h
        exact strDump_no_nl t hmem
      | list l =>
        simp only [dumpVal] at h
        cases hml : optMapM (fun v => dumpVal cls fuel v) l with
        | none => rw [hml] at h; simp at h
        | some parts =>
          rw [hml] at h
          simp only [Option.map_some', Option.some.injEq] at h
          subst h
          rcases List.mem_append.mp hmem with h1 | h1
          · rcases List.mem_cons.mp h1 with h2 | h2
            · omega
            · rcases joinSep_mem _ _ _ h2 with hsep | ⟨p, hp, hx⟩
              · exact absurd hsep (by decide)
              · obtain ⟨a, _, hfa⟩ := optMapM_mem _ l parts hml p hp
                exact dumpVal_no_nl cls fuel a p hfa hx
          · simp at h1
      | dict d =>
        simp only [dumpVal] at h
        cases hml : optMapM (fun p => (dumpVal cls fuel p.2).map
            (fun s => strDump p.1 ++ sepColon ++ s)) d with
        | none => rw [hml] at h; simp at h
        | some parts =>
          rw [hml] at h
          simp only [Option.map_some', Option.some.injEq] at h
          subst h
          rcases List.mem_append.mp hmem with h1 | h1
          · rcases List.mem_cons.mp h1 with h2 | h2
            · omega
            · rcases joinSep_mem _ _ _ h2 with hsep | ⟨p, hp, hx⟩
              · exact absurd hsep (by decide)
              · obtain ⟨en, _, hfa⟩ := optMapM_mem _ d parts hml p hp
                cases hdv : dumpVal cls fuel en.2 with
                | none => rw [hdv] at hfa; simp at hfa
                | some s2 =>
                  rw [hdv] at hfa
                  simp only [Option.map_some', Option.some.injEq] at hfa
                  subst hfa
                  rcases List.mem_append.mp hx with h3 | h3
                  · rcases List.mem_append.mp h3 with h4 | h4
                    · exact strDump_no_nl _ h4
                    · exact absurd h4 (by decide)
                  · exact dumpVal_no_nl cls fuel en.2 s2 hdv h3
          · simp at h1
      | ndarray a => simp [PyVal.delegated] at hv
      | npScalar dt x => simp [PyVal.delegated] at hv
      | npBool b => simp [PyVal.delegated] at hv
      | tfTensor a => simp [PyVal.delegated] at hv
      | bytes bs => simp [PyVal.delegated] at hv
      | other tag => simp [PyVal.delegated] at hv

theorem FS.write_self (fs : FS) (n c : List Nat) : FS.write fs n c n = some c := by
  simp [FS.write]

theorem FS.write_other (fs : FS) (n c m : List Nat) (h : ¬ m = n) : FS.write fs n c m = fs m := by
  simp [FS.write, h]

theorem FS.rename_dst (fs : FS) (src dst : List Nat) : FS.rename fs src dst dst = fs src := by
  simp [FS.rename]

theorem FS.rename_other (fs : FS) (src dst m : List Nat) (h1 : ¬ m = dst) (h2 : ¬ m = src) :
    FS.rename fs src dst m = fs m := by
  simp [FS.rename, h1, h2]

theorem metricsPhase_ok (lg : JSONLogger) (task : List Nat) (step : Int)
    (metrics : List (List Nat × MetricValue)) (fs : FS) (line : List Nat)
    (hm : metrics.isEmpty = false)
    (hline : dumpVal Option.none lineFuel (.dict (metricsDict step metrics)) = some line) :
    (metricsPhase lg task step metrics fs).2.2 = false
    ∧ (metricsPhase lg task step metrics fs).2.1 (metricsFnameOf lg task) =
        some ((fs (metricsFnameOf lg task)).getD [] ++ line ++ [10])
    ∧ (∀ s ∈ (metricsPhase lg task step metrics fs).1,
        s (metricsFnameOf lg task) = fs (metricsFnameOf lg task)
        ∨ s (metricsFnameOf lg task) =
          some ((fs (metricsFnameOf lg task)).getD [] ++ line ++ [10]))
    ∧ (∀ n, ¬ n = metricsFnameOf lg task → ¬ n = metricsFnameOf lg task ++ pystr ".tmp" →
        (metricsPhase lg task step metrics fs).2.1 n = fs n) := by
  have hmt : ¬ metricsFnameOf lg task = metricsFnameOf lg task ++ pystr ".tmp" :=
    fun h => tmp_ne_mname _ h.symm
  unfold metricsPhase
  simp only [hm, Bool.false_eq_true, if_false, hline]
  refine ⟨by trivial, ?_, ?_, ?_⟩
  · rw [FS.rename_dst, FS.write_self]
  · intro s hs
    rcases List.mem_cons.mp hs with rfl | hs
    · left
      rw [FS.write_other _ _ _ _ hmt]
    rcases List.mem_cons.mp hs with rfl | hs
    · left
      rw [FS.write_other _ _ _ _ hmt, FS.write_other _ _ _ _ hmt]
    rcases List.mem_cons.mp hs with rfl | hs
    · right
      rw [FS.rename_dst, FS.write_self]
    · simp at hs
  · intro n h1 h2
    rw [FS.rename_other _ _ _ _ h1 h2, FS.write_other _ _ _ _ h2, FS.write_other _ _ _ _ h2]

theorem metricsPhase_empty (lg : JSONLogger) (task : List Nat) (step : Int)
    (metrics : List (List Nat × MetricValue)) (fs : FS) (hm : metrics.isEmpty = true) :
    metricsPhase lg task step metrics fs = ([], fs, false) := by
  unfold metricsPhase
  simp [hm]

theorem infLoop_preserve (cls : TensorAndNumpyEncoder) (fname : List Nat) :
    ∀ (es : List Entry) (acc : List Nat) (fs : FS) (n : List Nat), ¬ n = fname →
      (infLoop cls fname es acc fs).2.1 n = fs n
      ∧ ∀ s ∈ (infLoop cls fname es acc fs).1, s n = fs n
  | [], acc, fs, n, hn => ⟨rfl, by simp [infLoop]⟩
  | en :: rest, acc, fs, n, hn => by
    cases hl : lineOf cls en with
    | none =>
      constructor
      · simp [infLoop, hl]
      · intro s hs
        simp [infLoop, hl] at hs
    | some line =>
      have ih := infLoop_preserve cls fname rest (acc ++ line ++ [10])
        (FS.write fs fname (acc ++ line ++ [10])) n hn
      have hw : FS.write fs fname (acc ++ line ++ [10]) n = fs n :=
        FS.write_other _ _ _ _ hn
      constructor
      · simp only [infLoop, hl]
        rw [ih.1, hw]
      · intro s hs
        simp only [infLoop, hl, List.mem_cons] at hs
        rcases hs with rfl | hs
        · exact hw
        · rw [ih.2 s hs, hw]

theorem infPhase_preserve (lg : JSONLogger) (task : List Nat) (step : Int) (dataset : List Inp)
    (inferences : List (List Nat × List PyVal)) (targets : List PyVal) (fs : FS)
    (n : List Nat) (hn : ¬ n = infFnameOf lg task step) :
    (infPhase lg task step dataset inferences targets fs).2.1 n = fs n
    ∧ ∀ s ∈ (infPhase lg task step dataset inferences targets fs).1, s n = fs n := by
  have hw : FS.write fs (infFnameOf lg task step) [] n = fs n := FS.write_other _ _ _ _ hn
  unfold infPhase
  cases lg.write_n_results with
  | none =>
    have ih := infLoop_preserve lg.json_encoder (infFnameOf lg task step)
      (zipLongest4 dataset (mapGet inferences (pystr "predictions") []) targets
        (mapGet inferences (pystr "scores") []))
      [] (FS.write fs (infFnameOf lg task step) []) n hn
    constructor
    · simp only []
      rw [ih.1, hw]
    · intro s hs
      simp only [List.mem_cons] at hs
      rcases hs with rfl | hs
      · exact hw
      · rw [ih.2 s hs, hw]
  | some k =>
    by_cases hk : k < 0
    · simp only [hk, if_true, if_pos]
      constructor
      · exact hw
      · intro s hs
        simp only [List.mem_singleton] at hs
        subst hs
        exact hw
    · simp only [hk, if_false, if_neg, not_false_iff]
      have ih := infLoop_preserve lg.json_encoder (infFnameOf lg task step)
        ((zipLongest4 dataset (mapGet inferences (pystr "predictions") []) targets
          (mapGet inferences (pystr "scores") [])).take k.toNat)
        [] (FS.write fs (infFnameOf lg task step) []) n hn
      constructor
      · rw [ih.1, hw]
      · intro s hs
        simp only [List.mem_cons] at hs
        rcases hs with rfl | hs
        · exact hw
        · rw [ih.2 s hs, hw]

/-- C3 (amended): for every call of JSONLogger.__call__ with a non-empty
metrics mapping whose metrics line serializes under plain json.dumps (which
fails only when a Text metric carries bytes), the metrics file after the call
is its previous contents followed by exactly one new JSON line (the line
contains no newline byte); the update goes through the .tmp file and a rename
with overwrite, and at every intermediate filesystem state the metrics file
holds either its old or its new contents, never a partial one. -/
theorem C3_metrics_append_is_atomic (lg : JSONLogger) (task : List Nat) (step? : Option Int)
    (metrics : List (List Nat × MetricValue)) (dataset : List Inp)
    (inferences : List (List Nat × List PyVal)) (targets : List PyVal) (fs : FS)
    (line : List Nat)
    (hm : metrics.isEmpty = false)
    (hline : dumpVal Option.none lineFuel
      (.dict (metricsDict (step?.getD (-1)) metrics)) = some line) :
    (lg.call task step? metrics dataset inferences targets fs).fs (metricsFnameOf lg task) =
      some ((fs (metricsFnameOf lg task)).getD [] ++ line ++ [10])
    ∧ (∀ s ∈ (lg.call task step? metrics dataset inferences targets fs).trace,
        s (metricsFnameOf lg task) = fs (metricsFnameOf lg task)
        ∨ s (metricsFnameOf lg task) =
          some ((fs (metricsFnameOf lg task)).getD [] ++ line ++ [10]))
    ∧ 10 ∉ line := by
  obtain ⟨hraised, hfinal, htrace, hpres⟩ :=
    metricsPhase_ok lg task (step?.getD (-1)) metrics fs line hm hline
  have hnl : 10 ∉ line := dumpVal_no_nl Option.none lineFuel _ line hline
  simp only [JSONLogger.call]
  rw [hraised]
  simp only [Bool.false_eq_true, if_false]
  by_cases hwn : lg.write_n_results = some 0
  · rw [if_pos hwn]
    exact ⟨hfinal, htrace, hnl⟩
  · rw [if_neg hwn]
    obtain ⟨hp1, hp2⟩ := infPhase_preserve lg task (step?.getD (-1)) dataset inferences targets
      (metricsPhase lg task (step?.getD (-1)) metrics fs).2.1 (metricsFnameOf lg task)
      (mname_ne_iname lg task _)
    refine ⟨?_, ?_, hnl⟩
    · show (infPhase lg task (step?.getD (-1)) dataset inferences targets
        (metricsPhase lg task (step?.getD (-1)) metrics fs).2.1).2.1
          (metricsFnameOf lg task) = _
      rw [hp1, hfinal]
    · intro s hs
      have hs2 : s ∈ (metricsPhase lg task (step?.getD (-1)) metrics fs).1 ++
          (infPhase lg task (step?.getD (-1)) dataset inferences targets
            (metricsPhase lg task (step?.getD (-1)) metrics fs).2.1).1 := hs
      rcases List.mem_append.mp hs2 with hs3 | hs3
      · exact htrace s hs3
      · right
        rw [hp2 s hs3, hfinal]

/-- Counterexample to C3 as stated: a non-empty metrics mapping whose Text
value carries bytes makes plain json.dumps raise TypeError, the call aborts,
and the metrics file is left untouched instead of gaining one line. -/
theorem C3_counterexample :
    ((⟨[], some 0, {}⟩ : JSONLogger).call (pystr "t") (some 1)
      [(pystr "m", MetricValue.text ⟨Sum.inr [255]⟩)] [] [] [] emptyFS).fs
      (metricsFnameOf (⟨[], some 0, {}⟩ : JSONLogger) (pystr "t")) = Option.none
    ∧ ((⟨[], some 0, {}⟩ : JSONLogger).call (pystr "t") (some 1)
      [(pystr "m", MetricValue.text ⟨Sum.inr [255]⟩)] [] [] [] emptyFS).raised = true := by
  constructor
  · decide
  · decide

/-- Witness for C3 at a concrete call: a Scalar metric is appended to the
empty metrics file as one JSON line. -/
theorem C3_metrics_append_is_atomic_witness :
    ((⟨[], some 0, {}⟩ : JSONLogger).call (pystr "t") (some 1)
      [(pystr "m", MetricValue.scalar ⟨PyNum.int 5⟩)] [] [] [] emptyFS).fs
      (metricsFnameOf (⟨[], some 0, {}⟩ : JSONLogger) (pystr "t")) =
      some ((emptyFS (metricsFnameOf (⟨[], some 0, {}⟩ : JSONLogger) (pystr "t"))).getD []
        ++ pystr "\x7b\x22step\x22: 1, \x22m\x22: 5\x7d" ++ [10]) :=
  (C3_metrics_append_is_atomic (⟨[], some 0, {}⟩ : JSONLogger) (pystr "t") (some 1)
    [(pystr "m", MetricValue.scalar ⟨PyNum.int 5⟩)] [] [] [] emptyFS
    (pystr "\x7b\x22step\x22: 1, \x22m\x22: 5\x7d") (by decide) (by decide)).1

/-- Whether a metric value is one of the kinds serialized by JSONLogger
(Scalar or Text). -/
def MetricValue.isSerializable : MetricValue → Bool
  | .scalar _ => true
  | .text _ => true
  | _ => false

theorem serializableMetrics_key : ∀ (metrics : List (List Nat × MetricValue))
    (q : List Nat × PyVal), q ∈ serializableMetrics metrics →
    ∃ m ∈ metrics, q.1 = m.1 ∧
      ((∃ s, m.2 = MetricValue.scalar s ∧ q.2 = pyNumVal s.value)
        ∨ (∃ t, m.2 = MetricValue.text t ∧ q.2 = textVal t.textdata)) := by
  intro metrics q hq
  obtain ⟨m, hm, hfm⟩ := List.mem_filterMap.mp hq
  rcases m with ⟨name, v⟩
  cases v with
  | scalar s =>
    simp only [Option.some.injEq] at hfm
    subst hfm
    exact ⟨(name, .scalar s), hm, rfl, Or.inl ⟨s, rfl, rfl⟩⟩
  | text t =>
    simp only [Option.some.injEq] at hfm
    subst hfm
    exact ⟨(name, .text t), hm, rfl, Or.inr ⟨t, rfl, rfl⟩⟩
  | image i => simp at hfm
  | audio a => simp at hfm
  | histogram h => simp at hfm
  | generic g => simp at hfm

theorem pairwise_keys_eq : ∀ (l : List (List Nat × MetricValue)) (a b : List Nat × MetricValue),
    l.Pairwise (fun p q => ¬ p.1 = q.1) → a ∈ l → b ∈ l → a.1 = b.1 → a = b
  | [], a, b, _, ha, _, _ => absurd ha (by simp)
  | x :: l, a, b, hpw, ha, hb, hk => by
    obtain ⟨hx, hl⟩ := List.pairwise_cons.mp hpw
    rcases List.mem_cons.mp ha with rfl | ha2
    · rcases List.mem_cons.mp hb with rfl | hb2
      · rfl
      · exact absurd hk (hx b hb2)
    · rcases List.mem_cons.mp hb with rfl | hb2
      · exact absurd hk.symm (hx a ha2)
      · exact pairwise_keys_eq l a b hl ha2 hb2 hk

theorem serializableMetrics_pairwise : ∀ metrics : List (List Nat × MetricValue),
    metrics.Pairwise (fun p q => ¬ p.1 = q.1) →
    (serializableMetrics metrics).Pairwise (fun p q => ¬ p.1 = q.1)
  | [], _ => List.Pairwise.nil
  | (name, v) :: rest, h => by
    obtain ⟨hm, hrest⟩ := List.pairwise_cons.mp h
    have ih := serializableMetrics_pairwise rest hrest
    have hhead : ∀ q ∈ serializableMetrics rest, ¬ name = q.1 := by
      intro q hq
      obtain ⟨m2, hm2, hk, _⟩ := serializableMetrics_key rest q hq
      intro hnq
      exact hm m2 hm2 (hnq.trans hk)
    cases v with
    | scalar s => exact List.pairwise_cons.mpr ⟨hhead, ih⟩
    | text t => exact List.pairwise_cons.mpr ⟨hhead, ih⟩
    | image i => exact ih
    | audio a => exact ih
    | histogram hh => exact ih
    | generic g => exact ih

theorem serializableMetrics_keys : ∀ metrics : List (List Nat × MetricValue),
    (serializableMetrics metrics).map Prod.fst =
      (metrics.filter fun p => p.2.isSerializable).map Prod.fst
  | [] => rfl
  | (name, v) :: rest => by
    have ih := serializableMetrics_keys rest
    cases v with
    | scalar s =>
      have h1 : serializableMetrics ((name, MetricValue.scalar s) :: rest) =
          (name, pyNumVal s.value) :: serializableMetrics rest := rfl
      have h2 : List.filter (fun p => p.2.isSerializable)
            ((name, MetricValue.scalar s) :: rest) =
          (name, MetricValue.scalar s) :: List.filter (fun p => p.2.isSerializable) rest := rfl
      rw [h1, h2, List.map_cons, List.map_cons, ih]
    | text t =>
      have h1 : serializableMetrics ((name, MetricValue.text t) :: rest) =
          (name, textVal t.textdata) :: serializableMetrics rest := rfl
      have h2 : List.filter (fun p => p.2.isSerializable)
            ((name, MetricValue.text t) :: rest) =
          (name, MetricValue.text t) :: List.filter (fun p => p.2.isSerializable) rest := rfl
      rw [h1, h2, List.map_cons, List.map_cons, ih]
    | image i =>
      have h1 : serializableMetrics ((name, MetricValue.image i) :: rest) =
          serializableMetrics rest := rfl
      have h2 : List.filter (fun p => p.2.isSerializable)
            ((name, MetricValue.image i) :: rest) =
          List.filter (fun p => p.2.isSerializable) rest := rfl
      rw [h1, h2, ih]
    | audio a =>
      have h1 : serializableMetrics ((name, MetricValue.audio a) :: rest) =
          serializableMetrics rest := rfl
      have h2 : List.filter (fun p => p.2.isSerializable)
            ((name, MetricValue.audio a) :: rest) =
          List.filter (fun p => p.2.isSerializable) rest := rfl
      rw [h1, h2, ih]
    | histogram hh =>
      have h1 : serializableMetrics ((name, MetricValue.histogram hh) :: rest) =
          serializableMetrics rest := rfl
      have h2 : List.filter (fun p => p.2.isSerializable)
            ((name, MetricValue.histogram hh) :: rest) =
          List.filter (fun p => p.2.isSerializable) rest := rfl
      rw [h1, h2, ih]
    | generic g =>
      have h1 : serializableMetrics ((name, MetricValue.generic g) :: rest) =
          serializableMetrics rest := rfl
      have h2 : List.filter (fun p => p.2.isSerializable)
            ((name, MetricValue.generic g) :: rest) =
          List.filter (fun p => p.2.isSerializable) rest := rfl
      rw [h1, h2, ih]

theorem foldl_dictUpd_all_new : ∀ (items init : List (List Nat × PyVal)),
    (∀ p ∈ items, ∀ q ∈ init, ¬ p.1 = q.1) →
    items.Pairwise (fun p q => ¬ p.1 = q.1) →
    items.foldl dictUpd init = init ++ items
  | [], init, _, _ => by simp
  | it :: items, init, hnew, hpw => by
    rw [List.foldl_cons]
    have hany : init.any (fun p => p.1 == it.1) = false := by
      rw [List.any_eq_false]
      intro q hq
      simp only [beq_iff_eq]
      intro hk
      exact hnew it (List.mem_cons_self _ _) q hq hk.symm
    have hupd : dictUpd init it = init ++ [it] := by
      unfold dictUpd
      rw [hany]
      simp
    rw [hupd]
    obtain ⟨hit, htail⟩ := List.pairwise_cons.mp hpw
    have ih := foldl_dictUpd_all_new items (init ++ [it])
      (by
        intro p hp q hq
        rcases List.mem_append.mp hq with hq2 | hq2
        · exact hnew p (List.mem_cons_of_mem _ hp) q hq2
        · simp only [List.mem_singleton] at hq2
          subst hq2
          exact fun h => hit p hp h.symm)
      htail
    rw [ih, List.append_assoc]
    rfl

theorem metricsDict_no_step (step : Int) (metrics : List (List Nat × MetricValue))
    (hstep : ∀ p ∈ metrics, ¬ p.1 = pystr "step")
    (hnodup : metrics.Pairwise (fun p q => ¬ p.1 = q.1)) :
    metricsDict step metrics =
      (pystr "step", PyVal.int step) :: serializableMetrics metrics := by
  unfold metricsDict
  rw [foldl_dictUpd_all_new]
  · rfl
  · intro p hp q hq
    simp only [List.mem_singleton] at hq
    subst hq
    obtain ⟨m2, hm2, hk, _⟩ := serializableMetrics_key metrics p hp
    rw [hk]
    exact hstep m2 hm2
  · exact serializableMetrics_pairwise metrics hnodup

/-- C4 (amended): assuming no metric is named step (Python dict semantics make
such a metric override the step entry), the mapping serialized into the
metrics line has the step key first, bound to the step argument, followed by
one key per Scalar or Text metric in iteration order, bound to the value or
the textdata respectively; every other metric variant is skipped and the
metrics block raises nothing; when the line serializes, it is appended to the
metrics file. -/
theorem C4_metrics_line_binds_step_first (lg : JSONLogger) (task : List Nat)
    (step? : Option Int) (metrics : List (List Nat × MetricValue)) (dataset : List Inp)
    (inferences : List (List Nat × List PyVal)) (targets : List PyVal) (fs : FS)
    (line : List Nat)
    (hm : metrics.isEmpty = false)
    (hstep : ∀ p ∈ metrics, ¬ p.1 = pystr "step")
    (hnodup : metrics.Pairwise (fun p q => ¬ p.1 = q.1))
    (hline : dumpVal Option.none lineFuel
      (.dict (metricsDict (step?.getD (-1)) metrics)) = some line) :
    metricsDict (step?.getD (-1)) metrics =
      (pystr "step", PyVal.int (step?.getD (-1))) :: serializableMetrics metrics
    ∧ (∀ (name : List Nat) (v : MetricValue), (name, v) ∈ metrics →
        (∀ s, v = MetricValue.scalar s →
          (name, pyNumVal s.value) ∈ serializableMetrics metrics)
        ∧ (∀ t, v = MetricValue.text t →
          (name, textVal t.textdata) ∈ serializableMetrics metrics)
        ∧ ((∀ s, ¬ v = MetricValue.scalar s) → (∀ t, ¬ v = MetricValue.text t) →
          ¬ name ∈ (serializableMetrics metrics).map Prod.fst))
    ∧ (serializableMetrics metrics).map Prod.fst =
        (metrics.filter fun p => p.2.isSerializable).map Prod.fst
    ∧ (lg.call task step? metrics dataset inferences targets fs).fs (metricsFnameOf lg task) =
        some ((fs (metricsFnameOf lg task)).getD [] ++ line ++ [10])
    ∧ (metricsPhase lg task (step?.getD (-1)) metrics fs).2.2 = false := by
  obtain ⟨hraised, hfinal, htrace, hpres⟩ :=
    metricsPhase_ok lg task (step?.getD (-1)) metrics fs line hm hline
  refine ⟨metricsDict_no_step _ metrics hstep hnodup, ?_, serializableMetrics_keys metrics,
    (C3_metrics_append_is_atomic lg task step? metrics dataset inferences targets fs line
      hm hline).1, hraised⟩
  intro name v hv
  refine ⟨?_, ?_, ?_⟩
  · intro s hs
    subst hs
    exact List.mem_filterMap.mpr ⟨(name, MetricValue.scalar s), hv, rfl⟩
  · intro t ht
    subst ht
    exact List.mem_filterMap.mpr ⟨(name, MetricValue.text t), hv, rfl⟩
  · intro hs ht hmem
    obtain ⟨q, hq, hq1⟩ := List.mem_map.mp hmem
    obtain ⟨m2, hm2, hk, hser⟩ := serializableMetrics_key metrics q hq
    have heq : (name, v) = m2 :=
      pairwise_keys_eq metrics (name, v) m2 hnodup hv hm2 (by rw [← hq1, ← hk])
    have hv2 : v = m2.2 := congrArg Prod.snd heq
    rcases hser with ⟨s, hs2, _⟩ | ⟨t, ht2, _⟩
    · exact hs s (by rw [hv2]; exact hs2)
    · exact ht t (by rw [hv2]; exact ht2)

/-- Counterexample to C4 as stated: a metric named step overrides the step
argument in the Python dict display, so the serialized mapping has a single
step key bound to the metric value 5, not to the step argument 7. -/
theorem C4_counterexample :
    (metricsDict 7 [(pystr "step", MetricValue.scalar ⟨PyNum.int 5⟩)]).map Prod.fst =
      [pystr "step"]
    ∧ dumpVal Option.none lineFuel
        (.dict (metricsDict 7 [(pystr "step", MetricValue.scalar ⟨PyNum.int 5⟩)])) =
      some (pystr "\x7b\x22step\x22: 5\x7d") :=
  ⟨by decide, by decide⟩

/-- Witness for C4 at a concrete metrics mapping. -/
theorem C4_metrics_line_binds_step_first_witness :
    metricsDict ((some 1 : Option Int).getD (-1))
        [(pystr "m", MetricValue.scalar ⟨PyNum.int 5⟩)] =
      (pystr "step", PyVal.int ((some 1 : Option Int).getD (-1))) ::
        serializableMetrics [(pystr "m", MetricValue.scalar ⟨PyNum.int 5⟩)] :=
  (C4_metrics_line_binds_step_first (⟨[], some 0, {}⟩ : JSONLogger) (pystr "t") (some 1)
    [(pystr "m", MetricValue.scalar ⟨PyNum.int 5⟩)] [] [] [] emptyFS
    (pystr "\x7b\x22step\x22: 1, \x22m\x22: 5\x7d") (by decide)
    (by
      intro p hp
      rcases List.mem_singleton.mp hp with rfl
      decide)
    (by simp) (by decide)).1

theorem metricsPhase_preserve (lg : JSONLogger) (task : List Nat) (step : Int)
    (metrics : List (List Nat × MetricValue)) (fs : FS) (n : List Nat)
    (h1 : ¬ n = metricsFnameOf lg task)
    (h2 : ¬ n = metricsFnameOf lg task ++ pystr ".tmp") :
    (metricsPhase lg task step metrics fs).2.1 n = fs n
    ∧ ∀ s ∈ (metricsPhase lg task step metrics fs).1, s n = fs n := by
  unfold metricsPhase
  cases hme : metrics.isEmpty with
  | true => simp
  | false =>
    simp only [Bool.false_eq_true, if_false]
    split
    · refine ⟨FS.write_other _ _ _ _ h2, ?_⟩
      intro s hs
      simp only [List.mem_singleton] at hs
      subst hs
      exact FS.write_other _ _ _ _ h2
    · constructor
      · dsimp only
        rw [FS.rename_other _ _ _ _ h1 h2, FS.write_other _ _ _ _ h2,
          FS.write_other _ _ _ _ h2]
      · intro s hs
        dsimp only at hs
        rcases List.mem_cons.mp hs with rfl | hs
        · exact FS.write_other _ _ _ _ h2
        rcases List.mem_cons.mp hs with rfl | hs
        · rw [FS.write_other _ _ _ _ h2, FS.write_other _ _ _ _ h2]
        rcases List.mem_cons.mp hs with rfl | hs
        · rw [FS.rename_other _ _ _ _ h1 h2, FS.write_other _ _ _ _ h2,
            FS.write_other _ _ _ _ h2]
        · simp at hs

theorem infLoop_isSome (cls : TensorAndNumpyEncoder) (fname : List Nat) :
    ∀ (es : List Entry) (acc : List Nat) (fs : FS), (fs fname).isSome = true →
      ((infLoop cls fname es acc fs).2.1 fname).isSome = true
  | [], _, _, h => h
  | en :: rest, acc, fs, h => by
    cases hl : lineOf cls en with
    | none => simpa [infLoop, hl] using h
    | some line =>
      have ih := infLoop_isSome cls fname rest (acc ++ line ++ [10])
        (FS.write fs fname (acc ++ line ++ [10]))
        (by rw [FS.write_self]; rfl)
      simpa [infLoop, hl] using ih

/-- C8: with write_n_results 0, JSONLogger.__call__ still appends the metrics
line (when metrics is non-empty and its line serializes) but returns before
the inferences file is created or touched, at every point of the call; with
write_n_results None and a metrics block that does not raise, the inferences
file does exist after the call. -/
theorem C8_write_n_results_zero_returns_early (lg : JSONLogger) (task : List Nat)
    (step? : Option Int) (metrics : List (List Nat × MetricValue)) (dataset : List Inp)
    (inferences : List (List Nat × List PyVal)) (targets : List PyVal) (fs : FS)
    (hwn : lg.write_n_results = some 0) :
    (lg.call task step? metrics dataset inferences targets fs).fs
        (infFnameOf lg task (step?.getD (-1))) = fs (infFnameOf lg task (step?.getD (-1)))
    ∧ (∀ s ∈ (lg.call task step? metrics dataset inferences targets fs).trace,
        s (infFnameOf lg task (step?.getD (-1))) = fs (infFnameOf lg task (step?.getD (-1))))
    ∧ (∀ line, metrics.isEmpty = false →
        dumpVal Option.none lineFuel (.dict (metricsDict (step?.getD (-1)) metrics)) =
          some line →
        (lg.call task step? metrics dataset inferences targets fs).fs
            (metricsFnameOf lg task) =
          some ((fs (metricsFnameOf lg task)).getD [] ++ line ++ [10]))
    ∧ (∀ lg2 : JSONLogger, lg2.write_n_results = Option.none →
        (metricsPhase lg2 task (step?.getD (-1)) metrics fs).2.2 = false →
        ((lg2.call task step? metrics dataset inferences targets fs).fs
          (infFnameOf lg2 task (step?.getD (-1)))).isSome = true) := by
  have hi1 : ¬ infFnameOf lg task (step?.getD (-1)) = metricsFnameOf lg task :=
    fun h => mname_ne_iname lg task _ h.symm
  have hi2 : ¬ infFnameOf lg task (step?.getD (-1)) =
      metricsFnameOf lg task ++ pystr ".tmp" :=
    fun h => tmpname_ne_iname lg task _ h.symm
  obtain ⟨hp1, hp2⟩ := metricsPhase_preserve lg task (step?.getD (-1)) metrics fs
    (infFnameOf lg task (step?.getD (-1))) hi1 hi2
  refine ⟨?_, ?_, ?_, ?_⟩
  · simp only [JSONLogger.call]
    cases hr : (metricsPhase lg task (step?.getD (-1)) metrics fs).2.2 with
    | true =>
      simp only [if_true]
      exact hp1
    | false =>
      simp only [Bool.false_eq_true, if_false, hwn, if_pos]
      exact hp1
  · intro s hs
    simp only [JSONLogger.call] at hs
    cases hr : (metricsPhase lg task (step?.getD (-1)) metrics fs).2.2 with
    | true =>
      rw [hr] at hs
      simp only [if_true] at hs
      exact hp2 s hs
    | false =>
      rw [hr] at hs
      simp only [Bool.false_eq_true, if_false, hwn, if_pos] at hs
      exact hp2 s hs
  · intro line hm hline
    exact (C3_metrics_append_is_atomic lg task step? metrics dataset inferences targets fs
      line hm hline).1
  · intro lg2 hwn2 hr2
    simp only [JSONLogger.call, hr2, Bool.false_eq_true, if_false]
    have hne : ¬ lg2.write_n_results = some 0 := by
      rw [hwn2]
      exact fun h => Option.noConfusion h
    rw [if_neg hne]
    show ((infPhase lg2 task (step?.getD (-1)) dataset inferences targets
      (metricsPhase lg2 task (step?.getD (-1)) metrics fs).2.1).2.1
        (infFnameOf lg2 task (step?.getD (-1)))).isSome = true
    unfold infPhase
    rw [hwn2]
    exact infLoop_isSome lg2.json_encoder _ _ []
      (FS.write (metricsPhase lg2 task (step?.getD (-1)) metrics fs).2.1
        (infFnameOf lg2 task (step?.getD (-1))) [])
      (by rw [FS.write_self]; rfl)

/-- Witness for C8 at a concrete call with write_n_results 0: the inferences
file stays absent. -/
theorem C8_write_n_results_zero_returns_early_witness :
    ((⟨[], some 0, {}⟩ : JSONLogger).call (pystr "t") (some 1)
        [(pystr "m", MetricValue.scalar ⟨PyNum.int 5⟩)] [] [] [] emptyFS).fs
      (infFnameOf (⟨[], some 0, {}⟩ : JSONLogger) (pystr "t") ((some 1 : Option Int).getD (-1)))
      = emptyFS (infFnameOf (⟨[], some 0, {}⟩ : JSONLogger) (pystr "t")
        ((some 1 : Option Int).getD (-1))) :=
  (C8_write_n_results_zero_returns_early (⟨[], some 0, {}⟩ : JSONLogger) (pystr "t") (some 1)
    [(pystr "m", MetricValue.scalar ⟨PyNum.int 5⟩)] [] [] [] emptyFS rfl).1

theorem isSome_map {α β : Type} (f : α → β) (o : Option α) :
    (o.map f).isSome = o.isSome := by
  cases o <;> rfl

theorem optMapM_isSome {α β : Type} (f : α → Option β) :
    ∀ l : List α, (optMapM f l).isSome = true ↔ ∀ a ∈ l, (f a).isSome = true
  | [] => by simp [optMapM]
  | a :: l => by
    rw [optMapM]
    cases hfa : f a with
    | none =>
      rw [Option.none_bind]
      constructor
      · intro h
        exact absurd h (by simp)
      · intro h
        have h2 := h a (List.mem_cons_self _ _)
        rw [hfa] at h2
        exact absurd h2 (by simp)
    | some y =>
      rw [Option.some_bind, isSome_map, optMapM_isSome f l]
      constructor
      · intro h x hx
        rcases List.mem_cons.mp hx with rfl | hx2
        · rw [hfa]
          rfl
        · exact h x hx2
      · intro h x hx
        exact h x (List.mem_cons_of_mem _ hx)

theorem dumpVal_dict_isSome (cls : Option TensorAndNumpyEncoder) (fuel : Nat)
    (d : List (List Nat × PyVal)) :
    (dumpVal cls (fuel + 1) (.dict d)).isSome = true ↔
      ∀ p ∈ d, (dumpVal cls fuel p.2).isSome = true := by
  have h1 : dumpVal cls (fuel + 1) (.dict d) =
      (optMapM (fun p => (dumpVal cls fuel p.2).map
        (fun s => strDump p.1 ++ sepColon ++ s)) d).map
        (fun parts => (123 :: joinSep sepComma parts) ++ [125]) := rfl
  rw [h1, isSome_map, optMapM_isSome]
  constructor
  · intro h p hp
    have h2 := h p hp
    rwa [isSome_map] at h2
  · intro h p hp
    rw [isSome_map]
    exact h p hp

theorem lineDictOf_eq (cls : TensorAndNumpyEncoder) (inp : Inp) (pred tgt sc : PyVal) :
    lineDictOf cls (some inp, pred, tgt, sc) =
      some ([(pystr "input", PyVal.dict inp)]
        ++ (if (pred.isNone || !(dumpVal (some cls) encFuel pred).isSome) = true then []
            else [(pystr "prediction", pred)])
        ++ (if (dumpVal (some cls) encFuel tgt).isSome = true
            then [(pystr "target", tgt)] else [])
        ++ (if sc.isNone = true then [] else [(pystr "score", sc)])) := by
  unfold lineDictOf
  cases hb1 : (pred.isNone || !(dumpVal (some cls) encFuel pred).isSome) <;>
    cases hb2 : (dumpVal (some cls) encFuel tgt).isSome <;>
      cases hb3 : sc.isNone <;>
        simp [hb1, hb2, hb3]

theorem lineOf_isSome (cls : TensorAndNumpyEncoder) (inp : Inp) (pred tgt sc : PyVal)
    (hinp : (dumpVal (some cls) encFuel (PyVal.dict inp)).isSome = true)
    (hsc : sc.isNone = false → (dumpVal (some cls) encFuel sc).isSome = true) :
    (lineOf cls (some inp, pred, tgt, sc)).isSome = true := by
  unfold lineOf
  rw [lineDictOf_eq]
  simp only [Option.some_bind]
  rw [show lineFuel = encFuel + 1 from rfl, dumpVal_dict_isSome]
  intro p hp
  simp only [List.append_assoc, List.cons_append, List.nil_append, List.mem_cons,
    List.mem_append] at hp
  rcases hp with rfl | hp
  · exact hinp
  rcases hp with hp | hp
  · by_cases hb1 : (pred.isNone || !(dumpVal (some cls) encFuel pred).isSome) = true
    · rw [if_pos hb1] at hp
      simp at hp
    · rw [if_neg hb1] at hp
      simp only [List.mem_singleton] at hp
      subst hp
      simp only [Bool.or_eq_true, Bool.not_eq_true', not_or, Bool.not_eq_true,
        Bool.not_eq_false] at hb1
      exact hb1.2
  rcases hp with hp | hp
  · by_cases hb2 : (dumpVal (some cls) encFuel tgt).isSome = true
    · rw [if_pos hb2] at hp
      simp only [List.mem_singleton] at hp
      subst hp
      exact hb2
    · rw [if_neg hb2] at hp
      simp at hp
  · by_cases hb3 : sc.isNone = true
    · rw [if_pos hb3] at hp
      simp at hp
    · rw [if_neg hb3] at hp
      simp only [List.mem_singleton] at hp
      subst hp
      exact hsc (Bool.not_eq_true _ ▸ (by revert hb3; cases sc.isNone <;> simp))

theorem lineDictOf_keys (cls : TensorAndNumpyEncoder) (inp : Inp) (pred tgt sc : PyVal) :
    ∃ d, lineDictOf cls (some inp, pred, tgt, sc) = some d
      ∧ d.head? = some (pystr "input", PyVal.dict inp)
      ∧ ((pystr "prediction") ∈ d.map Prod.fst ↔
          (pred.isNone = false ∧ (dumpVal (some cls) encFuel pred).isSome = true))
      ∧ ((pystr "target") ∈ d.map Prod.fst ↔ (dumpVal (some cls) encFuel tgt).isSome = true)
      ∧ ((pystr "score") ∈ d.map Prod.fst ↔ sc.isNone = false) := by
  have n1 : ¬ pystr "prediction" = pystr "input" := by decide
  have n2 : ¬ pystr "prediction" = pystr "target" := by decide
  have n3 : ¬ pystr "prediction" = pystr "score" := by decide
  have n4 : ¬ pystr "target" = pystr "input" := by decide
  have n5 : ¬ pystr "target" = pystr "prediction" := by decide
  have n6 : ¬ pystr "target" = pystr "score" := by decide
  have n7 : ¬ pystr "score" = pystr "input" := by decide
  have n8 : ¬ pystr "score" = pystr "prediction" := by decide
  have n9 : ¬ pystr "score" = pystr "target" := by decide
  refine ⟨_, lineDictOf_eq cls inp pred tgt sc, rfl, ?_, ?_, ?_⟩ <;>
    cases hp1 : pred.isNone <;>
      cases hp2 : (dumpVal (some cls) encFuel pred).isSome <;>
        cases hb2 : (dumpVal (some cls) encFuel tgt).isSome <;>
          cases hb3 : sc.isNone <;>
            simp [hp1, hp2, hb2, hb3, n1, n2, n3, n4, n5, n6, n7, n8, n9]

theorem zipLongest4_entry (ds : List Inp) (ps ts ss : List PyVal)
    (hp : ps.length ≤ ds.length) (ht : ts.length ≤ ds.length) (hs : ss.length ≤ ds.length) :
    ∀ en ∈ zipLongest4 ds ps ts ss,
      (∃ inp ∈ ds, en.1 = some inp) ∧ (en.2.2.2 = PyVal.none ∨ en.2.2.2 ∈ ss) := by
  intro en hen
  unfold zipLongest4 at hen
  obtain ⟨i, hi, rfl⟩ := List.mem_map.mp hen
  rw [List.mem_range] at hi
  have hN : max (max ds.length ps.length) (max ts.length ss.length) = ds.length := by omega
  rw [hN] at hi
  constructor
  · exact ⟨ds.get ⟨i, hi⟩, List.get_mem ds i hi, List.get?_eq_get hi⟩
  · show ss.getD i PyVal.none = PyVal.none ∨ ss.getD i PyVal.none ∈ ss
    unfold List.getD
    cases hq : ss.get? i with
    | none => exact Or.inl rfl
    | some x => exact Or.inr (by simpa using List.get?_mem hq)

theorem infLoop_content (cls : TensorAndNumpyEncoder) (fname : List Nat) :
    ∀ (es : List Entry) (acc : List Nat) (fs : FS), fs fname = some acc →
      (∀ en ∈ es, (lineOf cls en).isSome = true) →
      (infLoop cls fname es acc fs).2.2 = false
      ∧ (infLoop cls fname es acc fs).2.1 fname =
          some (acc ++ (es.map fun en => (lineOf cls en).getD [] ++ [10]).flatten)
  | [], acc, fs, hacc, _ => ⟨rfl, by simpa using hacc⟩
  | en :: rest, acc, fs, hacc, hall => by
    have hsome := hall en (List.mem_cons_self _ _)
    cases hl : lineOf cls en with
    | none =>
      rw [hl] at hsome
      exact absurd hsome (by simp)
    | some l =>
      have ih := infLoop_content cls fname rest (acc ++ l ++ [10])
        (FS.write fs fname (acc ++ l ++ [10])) (FS.write_self _ _ _)
        (fun e he => hall e (List.mem_cons_of_mem _ he))
      constructor
      · simpa [infLoop, hl] using ih.1
      · have h2 : (infLoop cls fname (en :: rest) acc fs).2.1 =
            (infLoop cls fname rest (acc ++ l ++ [10])
              (FS.write fs fname (acc ++ l ++ [10]))).2.1 := by
          simp [infLoop, hl]
        rw [h2, ih.2]
        simp [hl, List.append_assoc]

theorem infPhase_none (lg : JSONLogger) (task : List Nat) (step : Int) (dataset : List Inp)
    (inferences : List (List Nat × List PyVal)) (targets : List PyVal) (fs : FS)
    (hwn : lg.write_n_results = Option.none) :
    infPhase lg task step dataset inferences targets fs =
      (FS.write fs (infFnameOf lg task step) [] ::
          (infLoop lg.json_encoder (infFnameOf lg task step)
            (zipLongest4 dataset (mapGet inferences (pystr "predictions") []) targets
              (mapGet inferences (pystr "scores") []))
            [] (FS.write fs (infFnameOf lg task step) [])).1,
        (infLoop lg.json_encoder (infFnameOf lg task step)
          (zipLongest4 dataset (mapGet inferences (pystr "predictions") []) targets
            (mapGet inferences (pystr "scores") []))
          [] (FS.write fs (infFnameOf lg task step) [])).2) := by
  unfold infPhase
  split
  · next k heq =>
    rw [hwn] at heq
    exact Option.noConfusion heq
  · rfl

theorem infPhase_some_pos (lg : JSONLogger) (task : List Nat) (step : Int) (dataset : List Inp)
    (inferences : List (List Nat × List PyVal)) (targets : List PyVal) (fs : FS) (n : Int)
    (hwn : lg.write_n_results = some n) (hn : ¬ n < 0) :
    infPhase lg task step dataset inferences targets fs =
      (FS.write fs (infFnameOf lg task step) [] ::
          (infLoop lg.json_encoder (infFnameOf lg task step)
            ((zipLongest4 dataset (mapGet inferences (pystr "predictions") []) targets
              (mapGet inferences (pystr "scores") [])).take n.toNat)
            [] (FS.write fs (infFnameOf lg task step) [])).1,
        (infLoop lg.json_encoder (infFnameOf lg task step)
          ((zipLongest4 dataset (mapGet inferences (pystr "predictions") []) targets
            (mapGet inferences (pystr "scores") [])).take n.toNat)
          [] (FS.write fs (infFnameOf lg task step) [])).2) := by
  unfold infPhase
  split
  · next k heq =>
    rw [hwn] at heq
    have hk : k = n := by
      injection heq with h
      exact h.symm
    subst hk
    rw [if_neg hn]
  · next heq =>
    rw [hwn] at heq
    exact Option.noConfusion heq

theorem call_noraise (lg : JSONLogger) (task : List Nat) (step? : Option Int)
    (metrics : List (List Nat × MetricValue)) (dataset : List Inp)
    (inferences : List (List Nat × List PyVal)) (targets : List PyVal) (fs : FS)
    (hr : (metricsPhase lg task (step?.getD (-1)) metrics fs).2.2 = false)
    (hwn0 : ¬ lg.write_n_results = some 0) :
    lg.call task step? metrics dataset inferences targets fs =
      ⟨(infPhase lg task (step?.getD (-1)) dataset inferences targets
          (metricsPhase lg task (step?.getD (-1)) metrics fs).2.1).2.1,
        (metricsPhase lg task (step?.getD (-1)) metrics fs).1 ++
          (infPhase lg task (step?.getD (-1)) dataset inferences targets
            (metricsPhase lg task (step?.getD (-1)) metrics fs).2.1).1,
        (infPhase lg task (step?.getD (-1)) dataset inferences targets
          (metricsPhase lg task (step?.getD (-1)) metrics fs).2.1).2.2⟩ := by
  simp only [JSONLogger.call]
  rw [hr]
  simp only [Bool.false_eq_true, if_false, if_neg hwn0]

/-- C6 (amended): when the dataset is at least as long as the predictions,
targets and scores, every dataset example serializes, and every score
serializes, then after a non-raising metrics block JSONLogger.__call__ with
write_n_results None raises nothing and the inferences file holds exactly one
JSON line per zip_longest entry; with a positive write_n_results only that
many leading entries are written.  Every entry produces an object whose first
key is input, which has the prediction key exactly when the prediction is not
None and serializes, the target key exactly when the target serializes (None
does serialize), and the score key exactly when the score is not None. -/
theorem C6_inferences_one_line_per_entry (lg : JSONLogger) (task : List Nat)
    (step? : Option Int) (metrics : List (List Nat × MetricValue)) (dataset : List Inp)
    (inferences : List (List Nat × List PyVal)) (targets : List PyVal) (fs : FS)
    (hr : (metricsPhase lg task (step?.getD (-1)) metrics fs).2.2 = false)
    (hp : (mapGet inferences (pystr "predictions") []).length ≤ dataset.length)
    (ht : targets.length ≤ dataset.length)
    (hs : (mapGet inferences (pystr "scores") []).length ≤ dataset.length)
    (hinp : ∀ d ∈ dataset,
      (dumpVal (some lg.json_encoder) encFuel (PyVal.dict d)).isSome = true)
    (hscore : ∀ sc ∈ mapGet inferences (pystr "scores") [],
      (dumpVal (some lg.json_encoder) encFuel sc).isSome = true) :
    (lg.write_n_results = Option.none →
      (lg.call task step? metrics dataset inferences targets fs).raised = false
      ∧ (lg.call task step? metrics dataset inferences targets fs).fs
          (infFnameOf lg task (step?.getD (-1))) =
        some (((zipLongest4 dataset (mapGet inferences (pystr "predictions") []) targets
            (mapGet inferences (pystr "scores") [])).map
          fun en => (lineOf lg.json_encoder en).getD [] ++ [10]).flatten))
    ∧ (∀ n : Int, lg.write_n_results = some n → 0 < n →
      (lg.call task step? metrics dataset inferences targets fs).raised = false
      ∧ (lg.call task step? metrics dataset inferences targets fs).fs
          (infFnameOf lg task (step?.getD (-1))) =
        some ((((zipLongest4 dataset (mapGet inferences (pystr "predictions") []) targets
            (mapGet inferences (pystr "scores") [])).take n.toNat).map
          fun en => (lineOf lg.json_encoder en).getD [] ++ [10]).flatten))
    ∧ (∀ en ∈ zipLongest4 dataset (mapGet inferences (pystr "predictions") []) targets
        (mapGet inferences (pystr "scores") []),
        (lineOf lg.json_encoder en).isSome = true
        ∧ ∃ inp d, en.1 = some inp ∧ lineDictOf lg.json_encoder en = some d
          ∧ d.head? = some (pystr "input", PyVal.dict inp)
          ∧ ((pystr "prediction") ∈ d.map Prod.fst ↔
              (en.2.1.isNone = false
                ∧ (dumpVal (some lg.json_encoder) encFuel en.2.1).isSome = true))
          ∧ ((pystr "target") ∈ d.map Prod.fst ↔
              (dumpVal (some lg.json_encoder) encFuel en.2.2.1).isSome = true)
          ∧ ((pystr "score") ∈ d.map Prod.fst ↔ en.2.2.2.isNone = false)) := by
  have hall : ∀ en ∈ zipLongest4 dataset (mapGet inferences (pystr "predictions") []) targets
      (mapGet inferences (pystr "scores") []), (lineOf lg.json_encoder en).isSome = true := by
    intro en hen
    obtain ⟨⟨inp, hinpmem, h1⟩, hsc2⟩ := zipLongest4_entry dataset
      (mapGet inferences (pystr "predictions") []) targets
      (mapGet inferences (pystr "scores") []) hp ht hs en hen
    rcases en with ⟨eo, p, t, sc⟩
    have h1b : eo = some inp := h1
    subst h1b
    apply lineOf_isSome
    · exact hinp inp hinpmem
    · intro hscn
      rcases hsc2 with hnone | hmem
      · have hnone2 : sc = PyVal.none := hnone
        rw [hnone2] at hscn
        exact absurd hscn (by simp [PyVal.isNone])
      · exact hscore sc hmem
  refine ⟨?_, ?_, ?_⟩
  · intro hwn
    have hwn0 : ¬ lg.write_n_results = some 0 := by
      rw [hwn]
      exact fun h => Option.noConfusion h
    rw [call_noraise lg task step? metrics dataset inferences targets fs hr hwn0,
      infPhase_none lg task (step?.getD (-1)) dataset inferences targets _ hwn]
    have hcont := infLoop_content lg.json_encoder (infFnameOf lg task (step?.getD (-1)))
      (zipLongest4 dataset (mapGet inferences (pystr "predictions") []) targets
        (mapGet inferences (pystr "scores") [])) []
      (FS.write (metricsPhase lg task (step?.getD (-1)) metrics fs).2.1
        (infFnameOf lg task (step?.getD (-1))) [])
      (FS.write_self _ _ _) hall
    have h2 := hcont.2
    rw [List.nil_append] at h2
    exact ⟨hcont.1, h2⟩
  · intro n hwn hnpos
    have hwn0 : ¬ lg.write_n_results = some 0 := by
      rw [hwn]
      intro h
      have := Option.some.inj h
      omega
    rw [call_noraise lg task step? metrics dataset inferences targets fs hr hwn0,
      infPhase_some_pos lg task (step?.getD (-1)) dataset inferences targets _ n hwn
        (by omega)]
    have hcont := infLoop_content lg.json_encoder (infFnameOf lg task (step?.getD (-1)))
      ((zipLongest4 dataset (mapGet inferences (pystr "predictions") []) targets
        (mapGet inferences (pystr "scores") [])).take n.toNat) []
      (FS.write (metricsPhase lg task (step?.getD (-1)) metrics fs).2.1
        (infFnameOf lg task (step?.getD (-1))) [])
      (FS.write_self _ _ _)
      (fun en hen => hall en (List.take_subset _ _ hen))
    have h2 := hcont.2
    rw [List.nil_append] at h2
    exact ⟨hcont.1, h2⟩
  · intro en hen
    refine ⟨hall en hen, ?_⟩
    obtain ⟨⟨inp, _, h1⟩, _⟩ := zipLongest4_entry dataset
      (mapGet inferences (pystr "predictions") []) targets
      (mapGet inferences (pystr "scores") []) hp ht hs en hen
    rcases en with ⟨eo, p, t, sc⟩
    have h1b : eo = some inp := h1
    subst h1b
    obtain ⟨d, hd, hh, hkp, hkt, hks⟩ := lineDictOf_keys lg.json_encoder inp p t sc
    exact ⟨inp, d, rfl, hd, hh, hkp, hkt, hks⟩

/-- Counterexample to C6 as stated: with an empty dataset and one prediction,
zip_longest yields one entry whose input slot is None; iterating over None
raises TypeError, the call aborts, and the inferences file is left empty
instead of holding one line for the entry. -/
theorem C6_counterexample :
    ((⟨[], Option.none, {}⟩ : JSONLogger).call (pystr "t") (some 1) [] []
        [(pystr "predictions", [PyVal.str []])] [] emptyFS).raised = true
    ∧ ((⟨[], Option.none, {}⟩ : JSONLogger).call (pystr "t") (some 1) [] []
        [(pystr "predictions", [PyVal.str []])] [] emptyFS).fs
      (infFnameOf (⟨[], Option.none, {}⟩ : JSONLogger) (pystr "t") 1) = some []
    ∧ (zipLongest4 [] (mapGet [(pystr "predictions", [PyVal.str []])]
        (pystr "predictions") []) []
        (mapGet [(pystr "predictions", [PyVal.str []])] (pystr "scores") [])).length = 1 := by
  refine ⟨by decide, by decide, by decide⟩

/-- Witness for C6 at a concrete call with one example, one prediction, one
target and one score: the call does not raise and writes the expected single
line. -/
theorem C6_inferences_one_line_per_entry_witness :
    ((⟨[], Option.none, {}⟩ : JSONLogger).call (pystr "t") (some 1) []
        [[(pystr "x", PyVal.int 1)]]
        [(pystr "predictions", [PyVal.str (pystr "a")]), (pystr "scores", [PyVal.float 2])]
        [PyVal.str (pystr "b")] emptyFS).raised = false
    ∧ ((⟨[], Option.none, {}⟩ : JSONLogger).call (pystr "t") (some 1) []
        [[(pystr "x", PyVal.int 1)]]
        [(pystr "predictions", [PyVal.str (pystr "a")]), (pystr "scores", [PyVal.float 2])]
        [PyVal.str (pystr "b")] emptyFS).fs
        (infFnameOf (⟨[], Option.none, {}⟩ : JSONLogger) (pystr "t")
          ((some 1 : Option Int).getD (-1))) =
      some (((zipLongest4 [[(pystr "x", PyVal.int 1)]]
          (mapGet [(pystr "predictions", [PyVal.str (pystr "a")]),
            (pystr "scores", [PyVal.float 2])] (pystr "predictions") [])
          [PyVal.str (pystr "b")]
          (mapGet [(pystr "predictions", [PyVal.str (pystr "a")]),
            (pystr "scores", [PyVal.float 2])] (pystr "scores") [])).map
        fun en => (lineOf (⟨[], Option.none, {}⟩ : JSONLogger).json_encoder en).getD []
          ++ [10]).flatten) :=
  (C6_inferences_one_line_per_entry (⟨[], Option.none, {}⟩ : JSONLogger) (pystr "t")
    (some 1) [] [[(pystr "x", PyVal.int 1)]]
    [(pystr "predictions", [PyVal.str (pystr "a")]), (pystr "scores", [PyVal.float 2])]
    [PyVal.str (pystr "b")] emptyFS (by decide) (by decide) (by decide) (by decide)
    (by decide) (by decide)).1 rfl
